import Mathlib

/-!
Verification development for the rainbow expression-language core
(`rainbow_core`), a shallow embedding of the Rust sources.

Modelling conventions:
* Rust `Vec` stacks are Lean `List`s with the stack top at the END of the
  list (`push` appends, `pop` takes the last element), matching `Vec::push`
  and `Vec::pop`.
* Machine integers (`u8`/`u16`/`u32` ids and counts) are `Nat`; the places
  where the source performs a narrowing cast (`as u8`, `as u16`, `as u32`)
  are modelled with an explicit `% 2^w`.
* The IEEE-754 payload of `Prim::Number` is modelled by an opaque `Nat`
  code: no claim treated here performs floating-point arithmetic, only tag
  inspections and equality of tags.
* Rust panics (out-of-bounds `Vec` indexing, `panic!("no money")`,
  `unwrap`) are modelled by `Option`: a result of `none` means the Rust
  program panics.
* Fallible Rust functions returning `Result<T, V::Error>` through an
  `&mut Machine` are modelled as `MachineState → (Except RError T) ×
  MachineState`: the state component is the machine as left behind,
  whether the call succeeded or failed, exactly as the `&mut` borrow does.
* Error values (`V::Error` is `String` for the standalone value) are
  modelled structurally: the constructors of `RError` carry the data that
  the source formats into the message string.
* Loops whose termination depends on arbitrary host callbacks take a fuel
  parameter; running out of fuel yields `none`. All theorems below supply
  enough fuel for the executions they mention.
-/

namespace Rainbow

/-- `Prim` from `primitive.rs`: the number payload is an opaque code. -/
inductive Prim where
  | boolean (b : Bool)
  | number (code : Nat)
  | string (s : String)
  | time (t : Nat)
  | money (currency : String) (amount : Nat)
deriving DecidableEq, Repr

/-- `ArenaId` is `u16` in `arena.rs`; ids are modelled as `Nat`. -/
abbrev ArenaId := Nat

/-- `Instruction` from `interpreter/instruction.rs`. -/
inductive Instruction where
  | pushPrimitive (id : ArenaId)
  | pushVar (id : ArenaId)
  | pushProp (id : ArenaId)
  | pushKeyword (id : ArenaId)
  | mkList (size : Nat)
  | mkRecord (size : Nat)
  | mkBlock (argc : Nat) (skip : Nat)
  | bind (id : ArenaId)
  | callFunction (argc : Nat)
deriving DecidableEq, Repr

/-- `Block` from `interpreter/mod.rs`. The `machine` field is the raw
pointer back to the owning VM (an address); the address value itself is
never interpreted by the code modelled here. -/
structure Block where
  machine : Nat
  ip : Nat
  size : Nat
  argc : Nat
deriving DecidableEq, Repr

/-- The standalone `Value` from `standalone.rs`: records are association
lists standing in for `HashMap<String, Value>` (keys unique, `at` is the
first lookup). -/
inductive RValue where
  | prim (p : Prim)
  | list (xs : List RValue)
  | record (fields : List (String × RValue))
  | block (b : Block)

/-- `MachineError` from `interpreter/machine.rs`. -/
inductive MachineError where
  | valueStackEmpty
  | keywordStackEmpty
  | undefined
deriving DecidableEq, Repr

/-- Runtime errors. `V::Error` is `String` for the standalone value; each
constructor carries the data the source formats into that string. -/
inductive RError where
  | machine (e : MachineError) (ip : Nat) (instr : Option Instruction)
  | undefinedFunction (id : ArenaId)
  | conv (expected : String)
  | host (msg : String)

/-- The register set of `Machine` from `interpreter/machine.rs`. -/
structure MachineState where
  instructions : List Instruction
  ip : Nat
  programData : List Prim
  symbols : List String
  bindings : List (ArenaId × RValue)
  valueStack : List RValue
  keywordStack : List ArenaId

/-- `Vec::push`. -/
def vecPush (l : List α) (x : α) : List α := l ++ [x]

/-- `Vec::pop`. -/
def vecPop (l : List α) : Option (α × List α) :=
  (l.getLast?).map (fun x => (x, l.dropLast))

/-- First association-list hit, mirroring `HashMap::get` /
`Record::at` on the unique-key maps of the source. -/
def lookupStr (fields : List (String × α)) (key : String) : Option α :=
  (fields.find? (fun p => p.1 == key)).map (·.2)

/-- `HashMap` insertion: replace the existing binding for the key, else
append. -/
def insertStr (fields : List (String × α)) (key : String) (v : α) : List (String × α) :=
  if (fields.find? (fun p => p.1 == key)).isSome then
    fields.map (fun p => if p.1 == key then (key, v) else p)
  else fields ++ [(key, v)]

/-- `HashMap::from_iter`: later pairs overwrite earlier ones. -/
def recordFromPairs (ps : List (String × RValue)) : List (String × RValue) :=
  ps.foldl (fun acc p => insertStr acc p.1 p.2) []

/-- `Machine::error`: the source formats the error kind together with the
current instruction pointer and `self.instructions[ip]` (a panic when `ip`
is out of bounds; here the instruction is simply absent). -/
def MachineState.mkError (m : MachineState) (e : MachineError) : RError :=
  .machine e m.ip m.instructions[m.ip]?

/-- `Machine::pop_value`. -/
def popValue (m : MachineState) : (Except RError RValue) × MachineState :=
  match vecPop m.valueStack with
  | none => (.error (m.mkError .valueStackEmpty), m)
  | some (v, rest) => (.ok v, { m with valueStack := rest })

/-- `Machine::pop_values`. -/
def popValues (count : Nat) (m : MachineState) :
    (Except RError (List RValue)) × MachineState :=
  if count > m.valueStack.length then (.error (m.mkError .valueStackEmpty), m)
  else
    (.ok (m.valueStack.drop (m.valueStack.length - count)),
     { m with valueStack := m.valueStack.take (m.valueStack.length - count) })

/-- `Machine::pop_pairs`: the keyword stack is checked and popped first,
then the values are popped. -/
def popPairs (count : Nat) (m : MachineState) :
    (Except RError (List (ArenaId × RValue))) × MachineState :=
  if count > m.keywordStack.length then (.error (m.mkError .keywordStackEmpty), m)
  else
    let kws := m.keywordStack.drop (m.keywordStack.length - count)
    let m1 := { m with keywordStack := m.keywordStack.take (m.keywordStack.length - count) }
    match popValues count m1 with
    | (.error e, m2) => (.error e, m2)
    | (.ok vals, m2) => (.ok (kws.zip vals), m2)

/-- `box_prim`: `Prim::Money` panics ("no money"). -/
def boxPrim : Prim → Option RValue
  | .number n => some (.prim (.number n))
  | .string s => some (.prim (.string s))
  | .boolean b => some (.prim (.boolean b))
  | .time t => some (.prim (.time t))
  | .money _ _ => none

/-- A host callback as stored in `Namespace::callbacks`: it receives the
popped `(keyword, value)` pairs (the `Apply`) and the machine. -/
abbrev Callback :=
  List (ArenaId × RValue) → MachineState → (Except RError RValue) × MachineState

/-- The runtime face of `Namespace`: `get_callback` by function symbol id. -/
abbrev RunNamespace := ArenaId → Option Callback

/-- Push a value on the value stack. -/
def MachineState.pushV (m : MachineState) (v : RValue) : MachineState :=
  { m with valueStack := vecPush m.valueStack v }

/-- The body of `Machine::step` before the trailing
`self.instruction_pointer += 1`: `none` models a Rust panic. -/
def stepCore (ns : RunNamespace) (m : MachineState) :
    Option ((Except RError Unit) × MachineState) :=
  match m.instructions[m.ip]? with
  | none => none
  | some instr =>
    match instr with
    | .pushPrimitive id =>
      match m.programData[id]? with
      | none => none
      | some p => (boxPrim p).map (fun v => (.ok (), m.pushV v))
    | .pushVar id =>
      match (m.bindings.reverse.find? (fun p => p.1 == id)) with
      | some p => some (.ok (), m.pushV p.2)
      | none => some (.error (m.mkError .undefined), m)
    | .pushProp id =>
      match popValue m with
      | (.error e, m1) => some (.error e, m1)
      | (.ok v, m1) =>
        match v with
        | .record fields =>
          match m1.symbols[id]? with
          | none => none
          | some name =>
            match lookupStr fields name with
            | some value => some (.ok (), m1.pushV value)
            | none => some (.error (m1.mkError .undefined), m1)
        | _ => some (.error (.conv "record"), m1)
    | .pushKeyword id =>
      some (.ok (), { m with keywordStack := vecPush m.keywordStack id })
    | .mkList size =>
      match popValues size m with
      | (.error e, m1) => some (.error e, m1)
      | (.ok vals, m1) => some (.ok (), m1.pushV (.list vals))
    | .mkRecord size =>
      match popPairs size m with
      | (.error e, m1) => some (.error e, m1)
      | (.ok pairs, m1) =>
        match pairs.mapM (fun p => (m1.symbols[p.1]?).map (fun n => (n, p.2))) with
        | none => none
        | some named => some (.ok (), m1.pushV (.record (recordFromPairs named)))
    | .mkBlock argc skip =>
      let b : Block := { machine := 0, ip := (m.ip + 1) % 2 ^ 32, size := skip, argc := argc }
      some (.ok (), { m with ip := m.ip + skip, valueStack := vecPush m.valueStack (.block b) })
    | .bind id =>
      match popValue m with
      | (.error e, m1) => some (.error e, m1)
      | (.ok v, m1) => some (.ok (), { m1 with bindings := vecPush m1.bindings (id, v) })
    | .callFunction argc =>
      match popPairs argc m with
      | (.error e, m1) => some (.error e, m1)
      | (.ok pairs, m1) =>
        match pairs.head? with
        | none => none
        | some (funcId, _) =>
          match ns funcId with
          | none => some (.error (.undefinedFunction funcId), m1)
          | some cb =>
            match cb pairs m1 with
            | (.error e, m2) => some (.error e, m2)
            | (.ok v, m2) => some (.ok (), m2.pushV v)

/-- `Machine::step`: on success the instruction pointer advances by one;
an error returns early through `?` and skips the increment. -/
def step (ns : RunNamespace) (m : MachineState) :
    Option ((Except RError Unit) × MachineState) :=
  (stepCore ns m).map (fun r =>
    match r with
    | (.ok _, m') => (.ok (), { m' with ip := m'.ip + 1 })
    | (.error e, m') => (.error e, m'))

/-- The loop of `Machine::eval_range`, with fuel for host-callback
re-entrancy. -/
def evalLoop (ns : RunNamespace) : Nat → Nat → MachineState →
    Option ((Except RError Unit) × MachineState)
  | 0, _, _ => none
  | fuel + 1, endIdx, m =>
    if m.ip ≥ endIdx then some (.ok (), m)
    else
      match step ns m with
      | none => none
      | some (.error e, m') => some (.error e, m')
      | some (.ok _, m') => evalLoop ns fuel endIdx m'

/-- `Machine::eval_range`: the old instruction pointer is restored only on
the normal exit; a failing `step` propagates through `?` with the pointer
left where the error occurred. -/
def evalRange (ns : RunNamespace) (fuel : Nat) (start count : Nat) (m : MachineState) :
    Option ((Except RError Unit) × MachineState) :=
  let oldIp := m.ip
  match evalLoop ns fuel (start + count) { m with ip := start } with
  | none => none
  | some (.error e, m') => some (.error e, m')
  | some (.ok _, m') => some (.ok (), { m' with ip := oldIp })

/-- `Machine::eval_block` (the live copy at machine.rs:83-100): snapshot
the three stack lengths and the instruction pointer, push the arguments,
run the block's range, pop the result, then restore. The `?` on
`eval_range` returns early, so the restore lines do not run on that error
path. -/
def evalBlock (ns : RunNamespace) (fuel : Nat) (b : Block) (args : List RValue)
    (m : MachineState) : Option ((Except RError RValue) × MachineState) :=
  let origVS := m.valueStack.length
  let origKS := m.keywordStack.length
  let origB := m.bindings.length
  let origIp := m.ip
  let m1 := { m with valueStack := m.valueStack ++ args, ip := b.ip }
  match evalRange ns fuel b.ip b.size m1 with
  | none => none
  | some (.error e, m2) => some (.error e, m2)
  | some (.ok _, m2) =>
    let r := popValue m2
    some (r.1, { r.2 with
                  ip := origIp,
                  valueStack := r.2.valueStack.take origVS,
                  keywordStack := r.2.keywordStack.take origKS,
                  bindings := r.2.bindings.take origB })

/-- `Machine::run`. -/
def runMachine (ns : RunNamespace) (fuel : Nat) (m : MachineState) :
    Option ((Except RError RValue) × MachineState) :=
  match evalRange ns fuel 0 m.instructions.length m with
  | none => none
  | some (.error e, m') => some (.error e, m')
  | some (.ok _, m') => some (popValue m')

/-- `Machine::new`. -/
def mkMachine (instructions : List Instruction) (programData : List Prim)
    (symbols : List String) (bindings : List (ArenaId × RValue)) : MachineState :=
  { instructions := instructions, ip := 0, programData := programData,
    symbols := symbols, bindings := bindings, valueStack := [], keywordStack := [] }

/-- The empty namespace (no callbacks registered). -/
def emptyNs : RunNamespace := fun _ => none

/-- `NodeType` from `frontend/syntax_tree.rs` (`Variable` is rendered
`varNode` because `variable` is a Lean keyword). -/
inductive NodeType where
  | root
  | primitive (id : ArenaId)
  | ident (id : ArenaId)
  | varNode
  | list
  | record
  | recordEntry
  | apply
  | argument
  | keyword (id : ArenaId)
  | block
  | blockArgs
deriving DecidableEq, Repr

/-- `NodeData` from `frontend/syntax_tree.rs`. -/
structure NodeData where
  nodeType : NodeType
  startPos : Nat
  endPos : Nat
deriving DecidableEq, Repr

/-- A syntax tree node: the `id_tree` arena of the source presented
structurally. -/
inductive STree where
  | node (data : NodeData) (children : List STree)

def STree.nodeData : STree → NodeData
  | .node d _ => d

def STree.children : STree → List STree
  | .node _ cs => cs

def STree.nodeType (t : STree) : NodeType := t.nodeData.nodeType

/-- `SyntaxTree::node_id_to_symbol_id`: `none` models `NodeIdError`. -/
def nodeSymbolId (t : STree) : Option ArenaId :=
  match t.nodeType with
  | .ident i => some i
  | .keyword i => some i
  | _ => none

/-- The `PushProp` loop of the emitter's `Variable` case. -/
def emitProps : List STree → List Instruction → Option (List Instruction)
  | [], acc => some acc
  | c :: rest, acc => (nodeSymbolId c).bind (fun id => emitProps rest (acc ++ [.pushProp id]))

/-- The `Bind` loop of the emitter's `Block` case. -/
def emitBinds : List STree → List Instruction → Option (List Instruction)
  | [], acc => some acc
  | c :: rest, acc => (nodeSymbolId c).bind (fun id => emitBinds rest (acc ++ [.bind id]))


theorem STree.sizeOf_children_lt (t : STree) : sizeOf t.children < sizeOf t := by
  cases t with
  | node d cs => simp [STree.children]

mutual

/-- `Emitter::recur` from `interpreter/emitter.rs`, with the accumulated
`self.instructions` passed explicitly; `none` models `NodeIdError` and the
source's panicking child indexing. The `match data.node_type` of the
source is rendered as one clause per node type; node types the emitter
does not visit emit nothing. -/
def emitNode : STree → List Instruction → Option (List Instruction)
  | .node ⟨.root, _, _⟩ cs, acc => emitSeq cs acc
  | .node ⟨.primitive id, _, _⟩ _, acc => some (acc ++ [.pushPrimitive id])
  | .node ⟨.list, _, _⟩ cs, acc =>
    (emitSeq cs acc).map (fun a => a ++ [.mkList (cs.length % 2 ^ 16)])
  | .node ⟨.record, _, _⟩ cs, acc =>
    (emitEntries cs acc).map (fun a => a ++ [.mkRecord (cs.length % 2 ^ 16)])
  | .node ⟨.varNode, _, _⟩ [], _ => none
  | .node ⟨.varNode, _, _⟩ (c0 :: rest), acc =>
    (nodeSymbolId c0).bind (fun rootId => emitProps rest (acc ++ [.pushVar rootId]))
  | .node ⟨.block, _, _⟩ cs, acc =>
    let jumpIp := acc.length
    let acc1 := acc ++ [.mkBlock 0 0]
    let argsRes : Option (Nat × List Instruction) :=
      if cs.length > 1 then
        match cs with
        | c0 :: _ => (emitBinds c0.children acc1).map (fun a => (c0.children.length % 2 ^ 8, a))
        | [] => none
      else some (0, acc1)
    match argsRes with
    | none => none
    | some (argc, acc2) =>
      let bodyRes :=
        if h : cs.length > 0 then
          emitNode (cs.getLast (by intro hnil; rw [hnil] at h; simp at h)) acc2
        else some acc2
      bodyRes.map (fun acc3 =>
        acc3.set jumpIp (.mkBlock argc ((acc3.length - (jumpIp + 1)) % 2 ^ 16)))
  | .node ⟨.apply, _, _⟩ cs, acc =>
    (emitArgs cs acc).map (fun a => a ++ [.callFunction (cs.length % 2 ^ 16)])
  | .node ⟨.ident _, _, _⟩ _, acc => some acc
  | .node ⟨.recordEntry, _, _⟩ _, acc => some acc
  | .node ⟨.argument, _, _⟩ _, acc => some acc
  | .node ⟨.keyword _, _, _⟩ _, acc => some acc
  | .node ⟨.blockArgs, _, _⟩ _, acc => some acc
termination_by t _ => sizeOf t
decreasing_by
  all_goals simp_wf
  all_goals
    have := List.sizeOf_lt_of_mem (List.getLast_mem (l := cs) (by intro hnil; rw [hnil] at h; simp at h))
  all_goals omega

/-- The child loop of the `Root` and `List` cases. -/
def emitSeq : List STree → List Instruction → Option (List Instruction)
  | [], acc => some acc
  | c :: rest, acc =>
    match emitNode c acc with
    | none => none
    | some acc1 => emitSeq rest acc1
termination_by ts _ => sizeOf ts
decreasing_by
  all_goals simp_wf
  all_goals omega

/-- The entry loop of the `Record` case: each entry contributes
`PushKeyword(field)` then its value's code (`none` on a malformed
entry, where the source indexes out of bounds or hits `NodeIdError`). -/
def emitEntries : List STree → List Instruction → Option (List Instruction)
  | [], acc => some acc
  | .node _ (n :: v :: _) :: rest, acc =>
    match nodeSymbolId n with
    | none => none
    | some fid =>
      match emitNode v (acc ++ [.pushKeyword fid]) with
      | none => none
      | some acc2 => emitEntries rest acc2
  | _ :: _, _ => none
termination_by ts _ => sizeOf ts
decreasing_by
  all_goals simp_wf
  all_goals omega

/-- The argument loop of the `Apply` case: each argument contributes
`PushKeyword(keyword)` then its value's code. -/
def emitArgs : List STree → List Instruction → Option (List Instruction)
  | [], acc => some acc
  | .node _ (k :: v :: _) :: rest, acc =>
    match nodeSymbolId k with
    | none => none
    | some kid =>
      match emitNode v (acc ++ [.pushKeyword kid]) with
      | none => none
      | some acc2 => emitArgs rest acc2
  | _ :: _, _ => none
termination_by ts _ => sizeOf ts
decreasing_by
  all_goals simp_wf
  all_goals omega

end


/-! ### Emitter: the emitted code only appends to the accumulated instructions -/

theorem set_append_len (l l2 : List α) (b : α) :
    (l ++ l2).set l.length b = l ++ l2.set 0 b := by
  induction l with
  | nil => simp
  | cons x xs ih => simp [List.set, ih]

theorem emitProps_shift (ts : List STree) : ∀ acc,
    emitProps ts acc = (emitProps ts []).map (acc ++ ·) := by
  induction ts with
  | nil => intro acc; simp [emitProps]
  | cons c rest ih =>
    intro acc
    simp only [emitProps]
    cases nodeSymbolId c with
    | none => simp
    | some id =>
      simp only [Option.some_bind]
      rw [ih (acc ++ [Instruction.pushProp id]), ih ([] ++ [Instruction.pushProp id])]
      cases emitProps rest [] <;> simp

theorem emitBinds_shift (ts : List STree) : ∀ acc,
    emitBinds ts acc = (emitBinds ts []).map (acc ++ ·) := by
  induction ts with
  | nil => intro acc; simp [emitBinds]
  | cons c rest ih =>
    intro acc
    simp only [emitBinds]
    cases nodeSymbolId c with
    | none => simp
    | some id =>
      simp only [Option.some_bind]
      rw [ih (acc ++ [Instruction.bind id]), ih ([] ++ [Instruction.bind id])]
      cases emitBinds rest [] <;> simp

theorem emitNode_shift (t : STree) (acc0 : List Instruction) :
    emitNode t acc0 = (emitNode t []).map (acc0 ++ ·) := by
  refine emitNode.induct
    (fun t _ => ∀ acc, emitNode t acc = (emitNode t []).map (acc ++ ·))
    (fun ts _ => ∀ acc, emitArgs ts acc = (emitArgs ts []).map (acc ++ ·))
    (fun ts _ => ∀ acc, emitEntries ts acc = (emitEntries ts []).map (acc ++ ·))
    (fun ts _ => ∀ acc, emitSeq ts acc = (emitSeq ts []).map (acc ++ ·))
    ?_ ?_ ?_ ?_ ?_ ?_ ?_ ?_ ?_ ?_ ?_ ?_ ?_ ?_ ?_ ?_ ?_ ?_ ?_ ?_ ?_ ?_ ?_ ?_ ?_ ?_ ?_
    t acc0 acc0
  · -- root
    intro s e cs acc ih acc'
    simp only [emitNode]
    rw [ih acc']
  · -- primitive
    intro id s e cs acc acc'
    simp [emitNode]
  · -- list
    intro s e cs acc ih acc'
    simp only [emitNode]
    rw [ih acc', ih []]
    cases emitSeq cs [] <;> simp
  · -- record
    intro s e cs acc ih acc'
    simp only [emitNode]
    rw [ih acc', ih []]
    cases emitEntries cs [] <;> simp
  · -- varNode []
    intro s e acc acc'
    simp [emitNode]
  · -- varNode cons
    intro s e c0 rest acc acc'
    simp only [emitNode]
    cases nodeSymbolId c0 with
    | none => simp
    | some rid =>
      simp only [Option.some_bind]
      rw [emitProps_shift rest (acc' ++ [Instruction.pushVar rid]),
          emitProps_shift rest ([] ++ [Instruction.pushVar rid])]
      cases emitProps rest [] <;> simp
  · -- block, argsRes = none
    intro s e cs acc acc1 argsRes hnone acc'
    simp only [argsRes, acc1] at hnone
    clear argsRes acc1
    rcases cs with _ | ⟨c0, _ | ⟨c1, rest⟩⟩
    · simp at hnone
    · simp at hnone
    · rw [dif_pos (show ((c0 :: c1 :: rest).length > 1) by simp)] at hnone
      replace hnone : Option.map (fun a => (c0.children.length % 2 ^ 8, a))
          (emitBinds c0.children (acc ++ [Instruction.mkBlock 0 0])) = none := hnone
      rw [Option.map_eq_none'] at hnone
      have hb : emitBinds c0.children [] = none := by
        have := emitBinds_shift c0.children (acc ++ [Instruction.mkBlock 0 0])
        rw [hnone] at this
        cases hv : emitBinds c0.children [] with
        | none => rfl
        | some l => rw [hv] at this; simp at this
      simp only [emitNode]
      rw [if_pos (show ((c0 :: c1 :: rest).length > 1) by simp),
          if_pos (show ((c0 :: c1 :: rest).length > 1) by simp)]
      rw [emitBinds_shift c0.children (acc' ++ [Instruction.mkBlock 0 0]),
          emitBinds_shift c0.children ([] ++ [Instruction.mkBlock 0 0]), hb]
      rfl
  · -- block, argsRes = some
    intro s e cs acc acc1 argsRes argc acc2 hsome ihbody acc'
    rcases cs with _ | ⟨c0, _ | ⟨c1, rest⟩⟩
    · simp only [emitNode]
      simp [set_append_len, List.set]
    · have hshift : ∀ a, emitNode c0 a = (emitNode c0 []).map (a ++ ·) := by
        have h0 := ihbody (by simp)
        simpa using h0
      simp only [emitNode]
      rw [if_neg (show ¬([c0].length > 1) by simp),
          if_neg (show ¬([c0].length > 1) by simp)]
      simp only [List.getLast_singleton]
      rw [dif_pos (show ([c0].length > 0) by simp),
          dif_pos (show ([c0].length > 0) by simp)]
      rw [hshift (acc' ++ [Instruction.mkBlock 0 0]), hshift ([] ++ [Instruction.mkBlock 0 0])]
      cases hv : emitNode c0 [] with
      | none => rfl
      | some bc =>
        simp only [Option.map_some', List.nil_append]
        rw [show acc' ++ [Instruction.mkBlock 0 0] ++ bc =
              acc' ++ ([Instruction.mkBlock 0 0] ++ bc) by simp,
            set_append_len]
        simp [List.set]
        omega
    · have hshift : ∀ a, emitNode ((c0 :: c1 :: rest).getLast (by simp)) a =
          (emitNode ((c0 :: c1 :: rest).getLast (by simp)) []).map (a ++ ·) := by
        have h0 := ihbody (by simp)
        exact h0
      simp only [emitNode]
      rw [if_pos (show ((c0 :: c1 :: rest).length > 1) by simp),
          if_pos (show ((c0 :: c1 :: rest).length > 1) by simp)]
      rw [emitBinds_shift c0.children (acc' ++ [Instruction.mkBlock 0 0]),
          emitBinds_shift c0.children ([] ++ [Instruction.mkBlock 0 0])]
      cases hb : emitBinds c0.children [] with
      | none => rfl
      | some bnd =>
        simp only [Option.map_some', List.nil_append]
        rw [dif_pos (show ((c0 :: c1 :: rest).length > 0) by simp),
            dif_pos (show ((c0 :: c1 :: rest).length > 0) by simp)]
        rw [hshift ((acc' ++ [Instruction.mkBlock 0 0]) ++ bnd),
            hshift (([Instruction.mkBlock 0 0]) ++ bnd)]
        cases hv : emitNode ((c0 :: c1 :: rest).getLast (by simp)) [] with
        | none => rfl
        | some bc =>
          simp only [Option.map_some']
          rw [show acc' ++ [Instruction.mkBlock 0 0] ++ bnd ++ bc =
                acc' ++ ([Instruction.mkBlock 0 0] ++ bnd ++ bc) by simp,
              set_append_len]
          simp [List.set]
          omega
  · -- apply
    intro s e cs acc ih acc'
    simp only [emitNode]
    rw [ih acc', ih []]
    cases emitArgs cs [] <;> simp
  · -- ident
    intro id s e cs acc acc'
    simp [emitNode]
  · -- recordEntry
    intro s e cs acc acc'
    simp [emitNode]
  · -- argument
    intro s e cs acc acc'
    simp [emitNode]
  · -- keyword
    intro id s e cs acc acc'
    simp [emitNode]
  · -- blockArgs
    intro s e cs acc acc'
    simp [emitNode]
  · -- args nil
    intro acc acc'
    simp [emitArgs]
  · -- args symbol none
    intro data n v tail rest acc hsym acc'
    simp [emitArgs, hsym]
  · -- args emit none
    intro data n v tail rest acc fid hsym hemit ih1 acc'
    have hnil : emitNode v [] = none := by
      have := ih1 (acc ++ [Instruction.pushKeyword fid])
      rw [hemit] at this
      cases hv : emitNode v [] with
      | none => rfl
      | some l => rw [hv] at this; simp at this
    simp only [emitArgs, hsym]
    rw [ih1 (acc' ++ [Instruction.pushKeyword fid]), ih1 ([] ++ [Instruction.pushKeyword fid]), hnil]
    rfl
  · -- args emit some
    intro data n v tail rest acc fid hsym acc1 hemit ih1 ihrest acc'
    obtain ⟨vc, hvc⟩ : ∃ vc, emitNode v [] = some vc := by
      have := ih1 (acc ++ [Instruction.pushKeyword fid])
      rw [hemit] at this
      cases hv : emitNode v [] with
      | none => rw [hv] at this; simp at this
      | some l => exact ⟨l, rfl⟩
    simp only [emitArgs, hsym]
    rw [ih1 (acc' ++ [Instruction.pushKeyword fid]), ih1 ([] ++ [Instruction.pushKeyword fid]), hvc]
    simp only [Option.map_some']
    rw [ihrest (acc' ++ [Instruction.pushKeyword fid] ++ vc),
        ihrest ([] ++ [Instruction.pushKeyword fid] ++ vc)]
    cases emitArgs rest [] <;> simp
  · -- args malformed
    intro head tail x hshape acc'
    match head with
    | .node hd [] => simp [emitArgs]
    | .node hd [c] => simp [emitArgs]
    | .node hd (a :: b :: l) => exact absurd rfl (hshape hd a b l)
  · -- entries nil
    intro acc acc'
    simp [emitEntries]
  · -- entries symbol none
    intro data n v tail rest acc hsym acc'
    simp [emitEntries, hsym]
  · -- entries emit none
    intro data n v tail rest acc fid hsym hemit ih1 acc'
    have hnil : emitNode v [] = none := by
      have := ih1 (acc ++ [Instruction.pushKeyword fid])
      rw [hemit] at this
      cases hv : emitNode v [] with
      | none => rfl
      | some l => rw [hv] at this; simp at this
    simp only [emitEntries, hsym]
    rw [ih1 (acc' ++ [Instruction.pushKeyword fid]), ih1 ([] ++ [Instruction.pushKeyword fid]), hnil]
    rfl
  · -- entries emit some
    intro data n v tail rest acc fid hsym acc1 hemit ih1 ihrest acc'
    obtain ⟨vc, hvc⟩ : ∃ vc, emitNode v [] = some vc := by
      have := ih1 (acc ++ [Instruction.pushKeyword fid])
      rw [hemit] at this
      cases hv : emitNode v [] with
      | none => rw [hv] at this; simp at this
      | some l => exact ⟨l, rfl⟩
    simp only [emitEntries, hsym]
    rw [ih1 (acc' ++ [Instruction.pushKeyword fid]), ih1 ([] ++ [Instruction.pushKeyword fid]), hvc]
    simp only [Option.map_some']
    rw [ihrest (acc' ++ [Instruction.pushKeyword fid] ++ vc),
        ihrest ([] ++ [Instruction.pushKeyword fid] ++ vc)]
    cases emitEntries rest [] <;> simp
  · -- entries malformed
    intro head tail x hshape acc'
    match head with
    | .node hd [] => simp [emitEntries]
    | .node hd [c] => simp [emitEntries]
    | .node hd (a :: b :: l) => exact absurd rfl (hshape hd a b l)
  · -- seq nil
    intro acc acc'
    simp [emitSeq]
  · -- seq emit none
    intro c rest acc hemit ih1 acc'
    have hnil : emitNode c [] = none := by
      have := ih1 acc
      rw [hemit] at this
      cases hv : emitNode c [] with
      | none => rfl
      | some l => rw [hv] at this; simp at this
    simp only [emitSeq]
    rw [ih1 acc', hnil]
    rfl
  · -- seq emit some
    intro c rest acc acc1 hemit ih1 ihrest acc'
    obtain ⟨vc, hvc⟩ : ∃ vc, emitNode c [] = some vc := by
      have := ih1 acc
      rw [hemit] at this
      cases hv : emitNode c [] with
      | none => rw [hv] at this; simp at this
      | some l => exact ⟨l, rfl⟩
    simp only [emitSeq]
    rw [ih1 acc', hvc]
    simp only [Option.map_some']
    rw [ihrest (acc' ++ vc), ihrest vc]
    cases emitSeq rest [] <;> simp


/-- The keyword/value pieces of an `Argument` (or `RecordEntry`) node, as
the emitter reads them: the first child's symbol id and the second child. -/
def argParts (a : STree) : Option (ArenaId × STree) :=
  match a with
  | .node _ (k :: v :: _) => (nodeSymbolId k).map (fun kid => (kid, v))
  | _ => none

theorem emitBinds_concat : ∀ (ts : List STree) (ids : List ArenaId) (acc : List Instruction),
    ts.mapM nodeSymbolId = some ids →
    emitBinds ts acc = some (acc ++ ids.map Instruction.bind) := by
  intro ts
  induction ts with
  | nil =>
    intro ids acc h
    simp only [List.mapM_nil, Option.pure_def, Option.some.injEq] at h
    subst h
    simp [emitBinds]
  | cons c rest ih =>
    intro ids acc h
    simp only [List.mapM_cons] at h
    cases hc : nodeSymbolId c with
    | none => rw [hc] at h; simp at h
    | some cid =>
      rw [hc] at h
      cases hr : rest.mapM nodeSymbolId with
      | none => rw [hr] at h; simp at h
      | some restIds =>
        rw [hr] at h
        simp at h
        subst h
        simp only [emitBinds, hc, Option.some_bind]
        rw [ih restIds (acc ++ [Instruction.bind cid]) hr]
        simp

theorem emitArgs_concat : ∀ (args : List STree) (kvs : List (ArenaId × STree))
    (codes : List (List Instruction)) (acc : List Instruction),
    args.mapM argParts = some kvs →
    kvs.mapM (fun kv => emitNode kv.2 []) = some codes →
    emitArgs args acc =
      some (acc ++ (kvs.zip codes).flatMap (fun p => Instruction.pushKeyword p.1.1 :: p.2)) := by
  intro args
  induction args with
  | nil =>
    intro kvs codes acc h1 h2
    simp only [List.mapM_nil, Option.pure_def, Option.some.injEq] at h1
    subst h1
    simp only [List.mapM_nil, Option.pure_def, Option.some.injEq] at h2
    subst h2
    simp [emitArgs]
  | cons a rest ih =>
    intro kvs codes acc h1 h2
    simp only [List.mapM_cons] at h1
    cases hp : argParts a with
    | none => rw [hp] at h1; simp at h1
    | some kv =>
      rw [hp] at h1
      cases hr : rest.mapM argParts with
      | none => rw [hr] at h1; simp at h1
      | some kvrest =>
        rw [hr] at h1
        simp at h1
        subst h1
        simp only [List.mapM_cons] at h2
        cases hv : emitNode kv.2 [] with
        | none => rw [hv] at h2; simp at h2
        | some vcode =>
          rw [hv] at h2
          cases hcr : kvrest.mapM (fun kv => emitNode kv.2 []) with
          | none => rw [hcr] at h2; simp at h2
          | some crest =>
            rw [hcr] at h2
            simp at h2
            subst h2
            match a, hp with
            | .node d (k :: v :: tl), hp =>
              simp only [argParts] at hp
              cases hk : nodeSymbolId k with
              | none => rw [hk] at hp; simp at hp
              | some kid =>
                rw [hk] at hp
                simp only [Option.map_some', Option.some.injEq] at hp
                cases hp
                simp only [emitArgs, hk]
                rw [emitNode_shift v (acc ++ [Instruction.pushKeyword kid]), hv]
                simp only [Option.map_some']
                rw [ih kvrest crest (acc ++ [Instruction.pushKeyword kid] ++ vcode) hr hcr]
                simp [List.flatMap]


/-! ### Single-step characterizations of the VM -/

theorem step_mkBlock (ns : RunNamespace) (m : MachineState) (argc skip : Nat)
    (h : m.instructions[m.ip]? = some (.mkBlock argc skip)) :
    step ns m = some (.ok (),
      { m with ip := m.ip + skip + 1,
               valueStack := vecPush m.valueStack
                 (.block { machine := 0, ip := (m.ip + 1) % 2 ^ 32, size := skip, argc := argc }) }) := by
  simp [step, stepCore, h]

theorem step_pushVar_found (ns : RunNamespace) (m : MachineState) (id : ArenaId)
    (p : ArenaId × RValue)
    (h : m.instructions[m.ip]? = some (.pushVar id))
    (hfind : m.bindings.reverse.find? (fun q => q.1 == id) = some p) :
    step ns m = some (.ok (), { m with valueStack := vecPush m.valueStack p.2, ip := m.ip + 1 }) := by
  simp [step, stepCore, h, hfind, MachineState.pushV]

theorem step_pushVar_missing (ns : RunNamespace) (m : MachineState) (id : ArenaId)
    (h : m.instructions[m.ip]? = some (.pushVar id))
    (hfind : m.bindings.reverse.find? (fun q => q.1 == id) = none) :
    step ns m = some (.error (m.mkError .undefined), m) := by
  simp [step, stepCore, h, hfind]


/-! ### Pop characterizations -/

theorem popPairs_success (m : MachineState) (n : Nat) (ks kws : List ArenaId)
    (vs vals : List RValue)
    (hk : m.keywordStack = ks ++ kws) (hv : m.valueStack = vs ++ vals)
    (hkn : kws.length = n) (hvn : vals.length = n) :
    popPairs n m = (.ok (kws.zip vals), { m with keywordStack := ks, valueStack := vs }) := by
  subst hkn
  simp only [popPairs, hk, hv]
  rw [if_neg (by simp)]
  have hd : (ks ++ kws).length - kws.length = ks.length := by simp
  rw [hd, List.drop_left, List.take_left]
  simp only [popValues, hv]
  rw [if_neg (by simp [hvn])]
  have hd2 : (vs ++ vals).length - kws.length = vs.length := by simp [hvn]
  rw [hd2, List.drop_left, List.take_left]

theorem popPairs_value_shortfall (m : MachineState) (n : Nat)
    (hk : n ≤ m.keywordStack.length) (hv : m.valueStack.length < n) :
    popPairs n m =
      (.error ({ m with keywordStack := m.keywordStack.take (m.keywordStack.length - n)
               }.mkError .valueStackEmpty),
       { m with keywordStack := m.keywordStack.take (m.keywordStack.length - n) }) := by
  simp only [popPairs]
  rw [if_neg (by omega)]
  simp only [popValues]
  rw [if_pos (by simpa using hv)]

/-- Modelled from the claim's wording (spec §4.7 "keyword stack is popped
after values"): a `pop_pairs` variant that pops the `argc` values first and
the keyword stack afterwards. Used only to compare against the source's
`pop_pairs`. -/
def popPairsSpecOrder (count : Nat) (m : MachineState) :
    (Except RError (List (ArenaId × RValue))) × MachineState :=
  match popValues count m with
  | (.error e, m1) => (.error e, m1)
  | (.ok vals, m1) =>
    if count > m1.keywordStack.length then (.error (m1.mkError .keywordStackEmpty), m1)
    else
      let kws := m1.keywordStack.drop (m1.keywordStack.length - count)
      (.ok (kws.zip vals),
       { m1 with keywordStack := m1.keywordStack.take (m1.keywordStack.length - count) })

/-- A machine about to run `CallFunction 1` with one keyword pushed but no
value: the two pop orders disagree on it. -/
def cexMachine : MachineState :=
  { instructions := [.callFunction 1], ip := 0, programData := [], symbols := [],
    bindings := [], valueStack := [], keywordStack := [5] }

/-- C7 (counterexample): the claim says the keyword stack is popped after
the values; in the source `pop_pairs` checks and pops the keyword stack
first, so when the value stack is short the machine is left with the
keywords already removed, while the values-first order of the claim would
leave the keyword stack untouched. The two disagree on `cexMachine`. -/
theorem popPairs_order_cex :
    popPairs 1 cexMachine ≠ popPairsSpecOrder 1 cexMachine ∧
    (popPairs 1 cexMachine).2.keywordStack = [] ∧
    (popPairsSpecOrder 1 cexMachine).2.keywordStack = [5] := by
  refine ⟨?_, rfl, rfl⟩
  intro h
  have h1 : (popPairs 1 cexMachine).2.keywordStack = [] := rfl
  rw [h] at h1
  have h2 : (popPairsSpecOrder 1 cexMachine).2.keywordStack = [5] := rfl
  rw [h2] at h1
  exact List.noConfusion h1


theorem mapM_some_length {α β : Type} (f : α → Option β) :
    ∀ (ts : List α) (ids : List β), ts.mapM f = some ids → ids.length = ts.length := by
  intro ts
  induction ts with
  | nil => intro ids h; simp only [List.mapM_nil, Option.pure_def, Option.some.injEq] at h; simp [← h]
  | cons c rest ih =>
    intro ids h
    simp only [List.mapM_cons] at h
    cases hc : f c with
    | none => rw [hc] at h; simp at h
    | some x =>
      rw [hc] at h
      cases hr : rest.mapM f with
      | none => rw [hr] at h; simp at h
      | some xs =>
        rw [hr] at h
        simp at h
        rw [← h]
        simp [ih xs hr]

/-- C1: the claim says `Machine::eval_block` restores the instruction
pointer and the three stack lengths on every exit path, including an error
raised while executing the block's instruction range. The source code
(machine.rs:83-100) uses `?` on `eval_range`, so on that error path none
of the restore lines run: evaluating a one-argument block whose single
instruction is an unbound `PushVar` leaves the argument on the value stack
(length 1, pre-call 0) and the instruction pointer at the faulting
instruction (0, pre-call 5). -/
theorem evalBlock_error_exit_leaves_state_unrestored :
    evalBlock emptyNs 10 { machine := 0, ip := 0, size := 1, argc := 0 }
        [.prim (.boolean true)]
        { instructions := [.pushVar 7], ip := 5, programData := [], symbols := [],
          bindings := [], valueStack := [], keywordStack := [] } =
      some (.error (.machine .undefined 0 (some (.pushVar 7))),
        { instructions := [.pushVar 7], ip := 0, programData := [], symbols := [],
          bindings := [], valueStack := [.prim (.boolean true)], keywordStack := [] }) := by
  rfl

/-- C6: for a `Block` syntax node the emitter reserves a `MkBlock` slot at
index `J = acc.length`, emits one `Bind` per declared argument in source
order, emits the body, and patches the slot with the argument count and
`skip = instructions.len() - (J + 1)` (here `ids.length + bodyCode.length`,
since the code after the slot is the binds followed by the body); at run
time `MkBlock(argc, skip)` pushes a block handle with `ip` the current
instruction pointer plus one and `size = skip`, and leaves the instruction
pointer at `ip + skip + 1`, past the body, so the body does not execute at
block-creation time. -/
theorem emit_block_reserves_and_patches_mkBlock
    (s e : Nat) (argsData : NodeData) (argNodes : List STree) (ids : List ArenaId)
    (body : STree) (bodyCode : List Instruction) (acc : List Instruction)
    (h1 : argNodes.mapM nodeSymbolId = some ids)
    (h2 : emitNode body [] = some bodyCode) :
    (emitNode (.node ⟨.block, s, e⟩ [.node argsData argNodes, body]) acc =
      some (acc ++ [.mkBlock (ids.length % 2 ^ 8) ((ids.length + bodyCode.length) % 2 ^ 16)]
                ++ ids.map Instruction.bind ++ bodyCode)) ∧
    (emitNode (.node ⟨.block, s, e⟩ [body]) acc =
      some (acc ++ [.mkBlock 0 (bodyCode.length % 2 ^ 16)] ++ bodyCode)) ∧
    (∀ ns (m : MachineState) argc skip, m.instructions[m.ip]? = some (.mkBlock argc skip) →
      step ns m = some (.ok (),
        { m with ip := m.ip + skip + 1,
                 valueStack := vecPush m.valueStack
                   (.block { machine := 0, ip := (m.ip + 1) % 2 ^ 32, size := skip, argc := argc }) })) := by
  refine ⟨?_, ?_, fun ns m argc skip h => step_mkBlock ns m argc skip h⟩
  · have hb := emitBinds_concat argNodes ids (acc ++ [Instruction.mkBlock 0 0]) h1
    have hlen : ids.length = argNodes.length := mapM_some_length nodeSymbolId argNodes ids h1
    simp only [emitNode]
    rw [if_pos (by simp : ([STree.node argsData argNodes, body] : List STree).length > 1)]
    simp only [STree.children]
    rw [hb]
    simp only [Option.map_some']
    rw [dif_pos (by simp : ([STree.node argsData argNodes, body] : List STree).length > 0)]
    simp only [List.getLast]
    rw [emitNode_shift body (acc ++ [Instruction.mkBlock 0 0] ++ ids.map Instruction.bind), h2]
    simp only [Option.map_some']
    rw [show acc ++ [Instruction.mkBlock 0 0] ++ ids.map Instruction.bind ++ bodyCode =
          acc ++ ([Instruction.mkBlock 0 0] ++ ids.map Instruction.bind ++ bodyCode) by simp,
        set_append_len]
    simp [List.set, hlen]
    omega
  · simp only [emitNode]
    rw [if_neg (by simp : ¬(([body] : List STree).length > 1))]
    simp only [List.getLast_singleton]
    rw [dif_pos (by simp : ([body] : List STree).length > 0)]
    rw [emitNode_shift body (acc ++ [Instruction.mkBlock 0 0]), h2]
    simp only [Option.map_some']
    rw [show acc ++ [Instruction.mkBlock 0 0] ++ bodyCode =
          acc ++ ([Instruction.mkBlock 0 0] ++ bodyCode) by simp,
        set_append_len]
    simp [List.set]
    omega


/-- C7 (as amended): for an `Apply` node with `n` arguments the emitter
emits, per argument in source order, `PushKeyword(keyword)` followed by the
code of the argument's value, then `CallFunction(n)`; executing
`CallFunction(n)` pops `n` keywords and `n` values and zips them, so the
resulting `Apply` lists the pairs in source order with the first keyword (the
function name, pushed first by the emitter) first; the keyword stack is
checked and popped BEFORE the values (the source's `pop_pairs` splits off
the keywords and only then calls `pop_values`, so a value-stack shortfall
leaves the keywords already removed). -/
theorem emit_apply_and_callFunction_pairing
    (s e : Nat) (args : List STree) (kvs : List (ArenaId × STree))
    (codes : List (List Instruction)) (acc : List Instruction)
    (h1 : args.mapM argParts = some kvs)
    (h2 : kvs.mapM (fun kv => emitNode kv.2 []) = some codes) :
    (emitNode (.node ⟨.apply, s, e⟩ args) acc =
      some (acc ++ (kvs.zip codes).flatMap (fun p => Instruction.pushKeyword p.1.1 :: p.2)
                ++ [.callFunction (args.length % 2 ^ 16)])) ∧
    (∀ (m : MachineState) (n : Nat) (ks kws : List ArenaId) (vs vals : List RValue),
      m.keywordStack = ks ++ kws → m.valueStack = vs ++ vals →
      kws.length = n → vals.length = n →
      popPairs n m = (.ok (kws.zip vals), { m with keywordStack := ks, valueStack := vs })) ∧
    (∀ (m : MachineState) (n : Nat), n ≤ m.keywordStack.length → m.valueStack.length < n →
      popPairs n m =
        (.error ({ m with keywordStack := m.keywordStack.take (m.keywordStack.length - n)
                 }.mkError .valueStackEmpty),
         { m with keywordStack := m.keywordStack.take (m.keywordStack.length - n) })) := by
  refine ⟨?_, popPairs_success, popPairs_value_shortfall⟩
  simp only [emitNode]
  rw [emitArgs_concat args kvs codes acc h1 h2]
  simp

/-- C8: `PushVar(id)` pushes the value of the most recently pushed binding
whose symbol equals `id` (when several bindings share the symbol, the
topmost wins, since the source scans `bindings.iter().rev()`), and yields
an `Undefined` runtime error exactly when no binding for `id` exists. -/
theorem pushVar_topmost_binding_or_undefined (ns : RunNamespace) (m : MachineState)
    (id : ArenaId) (h : m.instructions[m.ip]? = some (.pushVar id)) :
    (∀ (v : RValue) (l1 l2 : List (ArenaId × RValue)),
      m.bindings = l1 ++ (id, v) :: l2 → (∀ p ∈ l2, p.1 ≠ id) →
      step ns m = some (.ok (), { m with valueStack := vecPush m.valueStack v, ip := m.ip + 1 })) ∧
    ((∀ p ∈ m.bindings, p.1 ≠ id) →
      step ns m = some (.error (m.mkError .undefined), m)) ∧
    (step ns m = some (.error (m.mkError .undefined), m) → ∀ p ∈ m.bindings, p.1 ≠ id) := by
  refine ⟨?_, ?_, ?_⟩
  · intro v l1 l2 hb hl2
    have hfind : m.bindings.reverse.find? (fun q => q.1 == id) = some (id, v) := by
      rw [hb]
      simp only [List.reverse_append, List.reverse_cons]
      rw [List.find?_append, List.find?_append]
      have hnone : l2.reverse.find? (fun q => q.1 == id) = none := by
        rw [List.find?_eq_none]
        intro x hx
        simp only [beq_iff_eq]
        exact hl2 x (List.mem_reverse.mp hx)
      rw [hnone]
      simp
    exact step_pushVar_found ns m id (id, v) h hfind
  · intro hall
    refine step_pushVar_missing ns m id h ?_
    rw [List.find?_eq_none]
    intro x hx
    simp only [beq_iff_eq]
    exact hall x (List.mem_reverse.mp hx)
  · intro hstep p hp hpid
    have hmem : p ∈ m.bindings.reverse := List.mem_reverse.mpr hp
    have : m.bindings.reverse.find? (fun q => q.1 == id) ≠ none := by
      intro hn
      rw [List.find?_eq_none] at hn
      exact hn p hmem (by simp [hpid])
    cases hfind : m.bindings.reverse.find? (fun q => q.1 == id) with
    | none => exact this hfind
    | some q =>
      have hok := step_pushVar_found ns m id q h hfind
      rw [hok] at hstep
      simp at hstep


/-! ### Scripts (`interpreter/script.rs`) -/

/-- `Arena::find`: the id of the first arena entry equal to `x`. -/
def arenaFind (data : List String) (x : String) : Option ArenaId :=
  data.findIdx? (fun y => x == y)

/-- The compiled parts of a `Script` used by `Script::eval`: the tree's
symbol and constant arenas and the emitted instructions. -/
structure Script where
  symbols : List String
  constants : List Prim
  instructions : List Instruction

/-- `Script::eval`: entries of the inputs map whose name resolves in the
symbol interner become bindings; the machine then runs. -/
def Script.eval (s : Script) (ns : RunNamespace) (fuel : Nat)
    (inputs : List (String × RValue)) : Option ((Except RError RValue) × MachineState) :=
  let bindings := inputs.filterMap (fun p => (arenaFind s.symbols p.1).map (fun id => (id, p.2)))
  runMachine ns fuel (mkMachine s.instructions s.constants s.symbols bindings)

/-- C10: `Script::eval` binds only the input entries whose names are found
in the script's symbol interner; an entry whose name does not occur is
silently dropped (filtering it away does not change the result), binding
never fails by itself (the result is exactly the machine run on the
filtered bindings), and a missing binding surfaces only later, as an
`Undefined` error when a `PushVar` for that symbol executes. -/
theorem eval_drops_unknown_inputs (s : Script) (ns : RunNamespace) (fuel : Nat)
    (inputs : List (String × RValue)) :
    (Script.eval s ns fuel inputs =
      Script.eval s ns fuel (inputs.filter (fun p => (arenaFind s.symbols p.1).isSome))) ∧
    (Script.eval s ns fuel inputs = runMachine ns fuel
      (mkMachine s.instructions s.constants s.symbols
        (inputs.filterMap (fun p => (arenaFind s.symbols p.1).map (fun id => (id, p.2)))))) ∧
    (∀ id : ArenaId, s.instructions = [.pushVar id] →
      (∀ p ∈ inputs, arenaFind s.symbols p.1 ≠ some id) → 1 ≤ fuel →
      ∃ m', Script.eval s ns fuel inputs =
        some (.error (.machine .undefined 0 (some (.pushVar id))), m')) := by
  refine ⟨?_, rfl, ?_⟩
  · simp only [Script.eval]
    congr 1
    simp only [mkMachine]
    congr 1
    induction inputs with
    | nil => rfl
    | cons p rest ih =>
      cases hfp : arenaFind s.symbols p.1 with
      | none => simp [List.filterMap_cons, List.filter_cons, hfp, ih]
      | some i => simp [List.filterMap_cons, List.filter_cons, hfp, ih]
  · intro id hinstr hnone hfuel
    obtain ⟨k, rfl⟩ : ∃ k, fuel = k + 1 := ⟨fuel - 1, by omega⟩
    set bindings := inputs.filterMap
      (fun p => (arenaFind s.symbols p.1).map (fun id => (id, p.2))) with hbdef
    have hball : ∀ q ∈ bindings, q.1 ≠ id := by
      intro q hq
      rw [hbdef, List.mem_filterMap] at hq
      obtain ⟨p, hp, hfp⟩ := hq
      cases hfind : arenaFind s.symbols p.1 with
      | none => rw [hfind] at hfp; simp at hfp
      | some j =>
        rw [hfind] at hfp
        simp only [Option.map_some', Option.some.injEq] at hfp
        intro hqid
        apply hnone p hp
        rw [hfind, ← hfp] at *
        simp_all
    set m0 : MachineState := mkMachine s.instructions s.constants s.symbols bindings with hm0
    have hstep : step ns m0 = some (.error (m0.mkError .undefined), m0) := by
      refine step_pushVar_missing ns m0 id ?_ ?_
      · simp [hm0, mkMachine, hinstr]
      · rw [List.find?_eq_none]
        intro q hq
        simp only [beq_iff_eq]
        exact hball q (List.mem_reverse.mp hq)
    refine ⟨m0, ?_⟩
    show runMachine ns (k + 1) m0 = _
    have hlen : m0.instructions.length = 1 := by simp [hm0, mkMachine, hinstr]
    simp only [runMachine, evalRange, hlen]
    rw [show ({ m0 with ip := 0 } : MachineState) = m0 from rfl]
    simp only [evalLoop]
    rw [if_neg (show ¬(m0.ip ≥ 0 + 1) from by simp [hm0, mkMachine])]
    have herr : m0.mkError .undefined = .machine .undefined 0 (some (.pushVar id)) := by
      simp [MachineState.mkError, hm0, mkMachine, hinstr]
    rw [hstep, herr]

theorem emit_block_mkBlock_witness :
    emitNode (STree.node ⟨.block, 0, 9⟩
      [STree.node ⟨.blockArgs, 1, 3⟩ [STree.node ⟨.ident 4, 1, 2⟩ []],
       STree.node ⟨.primitive 1, 4, 8⟩ []]) [] =
      some [.mkBlock 1 2, .bind 4, .pushPrimitive 1] ∧
    step emptyNs
      { instructions := [.mkBlock 1 2], ip := 0, programData := [], symbols := [],
        bindings := [], valueStack := [], keywordStack := [] } =
      some (.ok (),
        { instructions := [.mkBlock 1 2], ip := 3, programData := [], symbols := [],
          bindings := [], valueStack := [.block { machine := 0, ip := 1, size := 2, argc := 1 }],
          keywordStack := [] }) := by
  have h := emit_block_reserves_and_patches_mkBlock 0 9 ⟨.blockArgs, 1, 3⟩
    [STree.node ⟨.ident 4, 1, 2⟩ []] [4] (STree.node ⟨.primitive 1, 4, 8⟩ []) [.pushPrimitive 1] []
    (by rfl) (by simp [emitNode])
  constructor
  · simpa using h.1
  · have h2 := h.2.2 emptyNs
      { instructions := [.mkBlock 1 2], ip := 0, programData := [], symbols := [],
        bindings := [], valueStack := [], keywordStack := [] } 1 2 (by rfl)
    simpa [vecPush] using h2

theorem emit_apply_pairing_witness :
    emitNode (STree.node ⟨.apply, 0, 0⟩
      [STree.node ⟨.argument, 0, 0⟩
        [STree.node ⟨.keyword 3, 0, 0⟩ [], STree.node ⟨.primitive 0, 0, 0⟩ []]]) [] =
      some [.pushKeyword 3, .pushPrimitive 0, .callFunction 1] ∧
    popPairs 1
      { instructions := [.callFunction 1], ip := 0, programData := [], symbols := [],
        bindings := [], valueStack := [.prim (.boolean true), .prim (.boolean false)],
        keywordStack := [9, 3] } =
      (.ok [(3, .prim (.boolean false))],
       { instructions := [.callFunction 1], ip := 0, programData := [], symbols := [],
         bindings := [], valueStack := [.prim (.boolean true)], keywordStack := [9] }) ∧
    popPairs 1
      { instructions := [.callFunction 1], ip := 0, programData := [], symbols := [],
        bindings := [], valueStack := [], keywordStack := [9, 3] } =
      (.error (.machine .valueStackEmpty 0 (some (.callFunction 1))),
       { instructions := [.callFunction 1], ip := 0, programData := [], symbols := [],
         bindings := [], valueStack := [], keywordStack := [9] }) := by
  have h := emit_apply_and_callFunction_pairing 0 0
    [STree.node ⟨.argument, 0, 0⟩
      [STree.node ⟨.keyword 3, 0, 0⟩ [], STree.node ⟨.primitive 0, 0, 0⟩ []]]
    [(3, STree.node ⟨.primitive 0, 0, 0⟩ [])] [[.pushPrimitive 0]] [] (by rfl)
    (by simp [List.mapM, List.mapM.loop, emitNode])
  refine ⟨by simpa using h.1, ?_, ?_⟩
  · have h2 := h.2.1
      { instructions := [.callFunction 1], ip := 0, programData := [], symbols := [],
        bindings := [], valueStack := [.prim (.boolean true), .prim (.boolean false)],
        keywordStack := [9, 3] } 1 [9] [3] [.prim (.boolean true)] [.prim (.boolean false)]
      (by rfl) (by rfl) (by rfl) (by rfl)
    simpa using h2
  · have h3 := h.2.2
      { instructions := [.callFunction 1], ip := 0, programData := [], symbols := [],
        bindings := [], valueStack := [], keywordStack := [9, 3] } 1
      (by simp) (by simp)
    simpa [MachineState.mkError] using h3

theorem pushVar_topmost_witness :
    step emptyNs
      { instructions := [.pushVar 3], ip := 0, programData := [], symbols := [],
        bindings := [(3, .prim (.boolean true)), (5, .prim (.number 0)), (3, .prim (.boolean false))],
        valueStack := [], keywordStack := [] } =
      some (.ok (),
        { instructions := [.pushVar 3], ip := 1, programData := [], symbols := [],
          bindings := [(3, .prim (.boolean true)), (5, .prim (.number 0)), (3, .prim (.boolean false))],
          valueStack := [.prim (.boolean false)], keywordStack := [] }) ∧
    step emptyNs
      { instructions := [.pushVar 3], ip := 0, programData := [], symbols := [],
        bindings := [(5, .prim (.number 0))], valueStack := [], keywordStack := [] } =
      some (.error (.machine .undefined 0 (some (.pushVar 3))),
        { instructions := [.pushVar 3], ip := 0, programData := [], symbols := [],
          bindings := [(5, .prim (.number 0))], valueStack := [], keywordStack := [] }) := by
  constructor
  · have h := (pushVar_topmost_binding_or_undefined emptyNs
      { instructions := [.pushVar 3], ip := 0, programData := [], symbols := [],
        bindings := [(3, .prim (.boolean true)), (5, .prim (.number 0)), (3, .prim (.boolean false))],
        valueStack := [], keywordStack := [] } 3 (by rfl)).1
      (.prim (.boolean false)) [(3, .prim (.boolean true)), (5, .prim (.number 0))] []
      (by rfl) (by simp)
    simpa [vecPush] using h
  · have h := (pushVar_topmost_binding_or_undefined emptyNs
      { instructions := [.pushVar 3], ip := 0, programData := [], symbols := [],
        bindings := [(5, .prim (.number 0))], valueStack := [], keywordStack := [] } 3 (by rfl)).2.1
      (by simp)
    simpa [MachineState.mkError] using h

theorem eval_drops_unknown_inputs_witness :
    (Script.eval { symbols := ["x"], constants := [], instructions := [.pushVar 0] }
        emptyNs 5 [("x", .prim (.number 7)), ("typo", .prim (.number 8))] =
      Script.eval { symbols := ["x"], constants := [], instructions := [.pushVar 0] }
        emptyNs 5 [("x", .prim (.number 7))]) ∧
    (∃ m', Script.eval { symbols := ["x"], constants := [], instructions := [.pushVar 0] }
        emptyNs 5 [("y", .prim (.number 7))] =
      some (.error (.machine .undefined 0 (some (.pushVar 0))), m')) := by
  constructor
  · have h := (eval_drops_unknown_inputs
      { symbols := ["x"], constants := [], instructions := [.pushVar 0] } emptyNs 5
      [("x", .prim (.number 7)), ("typo", .prim (.number 8))]).1
    rw [h]
    rfl
  · exact (eval_drops_unknown_inputs
      { symbols := ["x"], constants := [], instructions := [.pushVar 0] } emptyNs 5
      [("y", .prim (.number 7))]).2.2 0 (by rfl) (by intro p hp; simp at hp; simp [hp, arenaFind]) (by omega)


/-! ### The type model (`typing/types.rs`) and the constraint solver
(`typing/constraint_solver.rs`) -/

/-- `Type` from `typing/types.rs`. A record field `(name, optional, ty)`
models `RecordField { optional, ty }`; the field `HashMap` is an
association list with unique keys. -/
inductive RType where
  | any
  | never
  | num
  | str
  | bool
  | time
  | money
  | list (t : RType)
  | record (partialFlag : Bool) (fields : List (String × Bool × RType))
  | block (inputs : List RType) (output : RType)
  | var (name : String)

/-- A substitution (`typing/substitution.rs`), a string-keyed `HashMap`
rendered as an association list. -/
abbrev Subst := List (String × RType)

def substGet (s : Subst) (k : String) : Option RType :=
  (s.find? (fun p => p.1 == k)).map (·.2)

def substInsert (s : Subst) (k : String) (t : RType) : Subst := insertStr s k t

/-- `HashMap::get` on a record's field map. -/
def lookupF (fields : List (String × Bool × RType)) (n : String) : Option (Bool × RType) :=
  (fields.find? (fun p => p.1 == n)).map (·.2)

mutual

/-- `Type::apply_substitution`. -/
def applySubst (subs : Subst) : RType → RType
  | .block inputs output => .block (applySubstList subs inputs) (applySubst subs output)
  | .record p fields => .record p (applySubstFields subs fields)
  | .var name =>
    match substGet subs name with
    | some t => t
    | none => .var name
  | .list el => .list (applySubst subs el)
  | .any => .any
  | .never => .never
  | .num => .num
  | .str => .str
  | .bool => .bool
  | .time => .time
  | .money => .money

/-- `apply_substitution` mapped over a block's input types. -/
def applySubstList (subs : Subst) : List RType → List RType
  | [] => []
  | t :: ts => applySubst subs t :: applySubstList subs ts

/-- `apply_substitution` applied to every field type
(`RecordField::mutate_type`). -/
def applySubstFields (subs : Subst) :
    List (String × Bool × RType) → List (String × Bool × RType)
  | [] => []
  | (n, o, t) :: fs => (n, o, applySubst subs t) :: applySubstFields subs fs

end

/-- `extend_vars` from `typing/substitution.rs`: merge two optional sets
of variable names (sets are duplicate-free lists). -/
def extendVars : Option (List String) → Option (List String) → Option (List String)
  | some vs, some ms =>
    some (ms.foldl (fun acc v => if acc.contains v then acc else acc ++ [v]) vs)
  | none, none => none
  | some vs, none => some vs
  | none, some ms => some ms

mutual

/-- `Type::free_vars`. -/
def freeVars : RType → Option (List String)
  | .block inputs output => extendVars (freeVarsList none inputs) (freeVars output)
  | .var name => some [name]
  | .list el => freeVars el
  | .record _ fields => freeVarsFields none fields
  | _ => none

/-- The left fold of `extend_vars` over a block's input types. -/
def freeVarsList : Option (List String) → List RType → Option (List String)
  | acc, [] => acc
  | acc, t :: ts => freeVarsList (extendVars acc (freeVars t)) ts

/-- The left fold of `extend_vars` over a record's field types. -/
def freeVarsFields : Option (List String) → List (String × Bool × RType) → Option (List String)
  | acc, [] => acc
  | acc, (_, _, t) :: fs => freeVarsFields (extendVars acc (freeVars t)) fs

end

/-- `Substitutable::contains_var`. -/
def containsVar (t : RType) (v : String) : Bool :=
  match freeVars t with
  | some vs => vs.contains v
  | none => false

theorem lookupF_sizeOf (fields : List (String × Bool × RType)) (n : String)
    (o2 : Bool) (t2 : RType) (h : lookupF fields n = some (o2, t2)) :
    sizeOf t2 < sizeOf fields := by
  simp only [lookupF, Option.map_eq_some'] at h
  obtain ⟨p, hp, hval⟩ := h
  have hm := List.mem_of_find?_eq_some hp
  have := List.sizeOf_lt_of_mem hm
  obtain ⟨n', o', t'⟩ := p
  simp at hval
  obtain ⟨h1, h2⟩ := hval
  subst h2
  simp at this
  omega

mutual

/-- The `PartialEq` of `Type` (a `derive`d structural equality, except
that the field `HashMap`s of two records compare as maps: equal size and
every left entry present with an equal value on the right). -/
def RType.beq : RType → RType → Bool
  | .any, .any => true
  | .never, .never => true
  | .num, .num => true
  | .str, .str => true
  | .bool, .bool => true
  | .time, .time => true
  | .money, .money => true
  | .list a, .list b => RType.beq a b
  | .record p1 f1, .record p2 f2 =>
    p1 == p2 && f1.length == f2.length && beqFieldsSub f1 f2
  | .block i1 o1, .block i2 o2 => beqList i1 i2 && RType.beq o1 o2
  | .var a, .var b => a == b
  | _, _ => false

/-- Pointwise equality of two input-type lists. -/
def beqList : List RType → List RType → Bool
  | [], [] => true
  | a :: as_, b :: bs => RType.beq a b && beqList as_ bs
  | _, _ => false

/-- Every left field is present on the right with the same optionality
and an equal type. -/
def beqFieldsSub : List (String × Bool × RType) → List (String × Bool × RType) → Bool
  | [], _ => true
  | (n, o, t) :: fs, f2 =>
    match lookupF f2 n with
    | some (o2, t2) => o == o2 && RType.beq t t2 && beqFieldsSub fs f2
    | none => false

end


/-- `TypeLoc` from `typing/type_errors.rs`. -/
inductive TypeLoc where
  | listElement
  | field (name : String)
  | blockArg (i : Nat)
  | blockBody
deriving DecidableEq, Repr

/-- `ConstraintProblem` from `typing/type_errors.rs`. -/
inductive ConstraintProblem where
  | alreadyBound (name : String) (old next : RType)
  | infiniteType (name : String) (t : RType)
  | rebindUndefined (name : String)
  | incompatible (l r : RType)
  | blockArity (expected actual : Nat)
  | fieldMissing (name : String)
  | fieldOptional (name : String)

/-- `Problem` from `typing/type_errors.rs`. -/
inductive Problem where
  | unknownFunction
  | unknownKeyword (funcName : String)
  | constraint (path : List TypeLoc) (p : ConstraintProblem)

/-- `TypeError` from `typing/type_errors.rs`. -/
structure TypeError where
  location : NodeData
  error : Problem

/-- The mutable parts of `Unifier`: the substitution, the error sink and
the location path. -/
structure UState where
  subst : Subst
  errors : List TypeError
  path : List TypeLoc

/-- `Unifier::add_problem`. -/
def addProblem (loc : NodeData) (s : UState) (p : ConstraintProblem) : UState :=
  { s with errors := s.errors ++ [{ location := loc, error := .constraint s.path p }] }

/-- `Unifier::bind`. -/
def bindVar (loc : NodeData) (varName : String) (ty : RType) (s : UState) : RType × UState :=
  if containsVar ty varName then
    (ty, addProblem loc s (.infiniteType varName ty))
  else
    let typ := applySubst s.subst ty
    match substGet s.subst varName with
    | some prevTy =>
      if RType.beq typ prevTy then
        (typ, { s with subst := substInsert s.subst varName typ })
      else
        (prevTy, addProblem loc s (.alreadyBound varName prevTy ty))
    | none => (typ, { s with subst := substInsert s.subst varName typ })

/-- One arm of `Unifier::rebind`, for one of the two constraint sides. -/
def rebindSide (loc : NodeData) (side : RType) (newType : RType) (s : UState) : UState :=
  match side with
  | .var v =>
    if containsVar newType v then addProblem loc s (.infiniteType v newType)
    else if (substGet s.subst v).isNone then addProblem loc s (.rebindUndefined v)
    else { s with subst := substInsert s.subst v newType }
  | _ => s

/-- `Unifier::rebind`: rebind the merged type into any variable that
named the left or right side of the constraint (left first). -/
def rebindU (loc : NodeData) (left right newType : RType) (s : UState) : RType × UState :=
  (newType, rebindSide loc right newType (rebindSide loc left newType s))

/-- `HashMap::remove` on a field map: the value for `n` and the map
without that entry. -/
def extractField (fr : List (String × Bool × RType)) (n : String) :
    Option ((Bool × RType) × List (String × Bool × RType)) :=
  match lookupF fr n with
  | none => none
  | some v => some (v, fr.eraseP (fun p => p.1 == n))

mutual

/-- `Unifier::unify`, with fuel standing in for the recursion the Rust
borrow checker permits; every theorem below uses a successor fuel, and the
fuel-exhausted base returns the substituted left side with the state
untouched (never reached in the theorems). -/
def unify (fuel : Nat) (loc : NodeData) (left right : RType) (s : UState) : RType × UState :=
  match fuel with
  | 0 => (applySubst s.subst left, s)
  | fuel + 1 =>
    let l := applySubst s.subst left
    let r := applySubst s.subst right
    if RType.beq l r then (l, s)
    else
      match l, r with
      | ty, .var name => bindVar loc name ty s
      | .var name, ty => bindVar loc name ty s
      | .list le, .list re => recurU fuel loc .listElement le re s
      | .record pl fl, .record pr fr =>
        let (fields, rightRem, s1) := unifyFields fuel loc pr fl fr s
        let fields2 :=
          if pl then fields ++ applySubstFields s1.subst rightRem else fields
        rebindU loc left right (.record pl fields2) s1
      | .block li lo, .block ri ro =>
        let s1 :=
          if li.length > ri.length then
            addProblem loc s (.blockArity ri.length li.length)
          else s
        let (inputs, s2) := unifyInputs fuel loc 0 (li.zip ri) s1
        let (outT, s3) := recurU fuel loc .blockBody lo ro s2
        (.block inputs outT, s3)
      | .any, _ => (.any, s)
      | _, .any => (.any, s)
      | l, r => (l, addProblem loc s (.incompatible l r))

/-- `Unifier::recur`: push the location, unify, pop the location. -/
def recurU (fuel : Nat) (loc : NodeData) (tl : TypeLoc) (l r : RType) (s : UState) :
    RType × UState :=
  let s1 := { s with path := s.path ++ [tl] }
  let (t, s2) := unify fuel loc l r s1
  (t, { s2 with path := s2.path.dropLast })

/-- The per-left-field loop of the `Record × Record` case: returns the
merged fields (in left order), the unmatched right fields, and the state. -/
def unifyFields (fuel : Nat) (loc : NodeData) (pr : Bool) :
    List (String × Bool × RType) → List (String × Bool × RType) → UState →
    (List (String × Bool × RType) × List (String × Bool × RType) × UState)
  | [], fr, s => ([], fr, s)
  | (name, lopt, lty) :: fl, fr, s =>
    match extractField fr name with
    | none =>
      if !lopt && !pr then
        let s1 := addProblem loc s (.fieldMissing name)
        unifyFields fuel loc pr fl fr s1
      else
        let fld := (name, lopt, applySubst s.subst lty)
        let (fields, rem, s2) := unifyFields fuel loc pr fl fr s
        (fld :: fields, rem, s2)
    | some ((ropt, rty), frRest) =>
      let s1 := if !lopt && ropt then addProblem loc s (.fieldOptional name) else s
      let (newTy, s2) := recurU fuel loc (.field name) lty rty s1
      let (fields, rem, s3) := unifyFields fuel loc pr fl frRest s2
      ((name, lopt, newTy) :: fields, rem, s3)

/-- The input-pair loop of the `Block × Block` case: the pairs come from
`left_in.zip(right_in)` and each is unified with the pair order inverted
(`recur(a_in, e_in)`). -/
def unifyInputs (fuel : Nat) (loc : NodeData) (i : Nat) :
    List (RType × RType) → UState → (List RType × UState)
  | [], s => ([], s)
  | (eIn, aIn) :: rest, s =>
    let (t, s1) := recurU fuel loc (.blockArg i) aIn eIn s
    let (ts, s2) := unifyInputs fuel loc (i + 1) rest s1
    (t :: ts, s2)

end


/-- Every error in `Δ` is a `Constraint` error at location `loc` whose
path has at least `minLen` entries. -/
def errsFrom (loc : NodeData) (minLen : Nat) (Δ : List TypeError) : Prop :=
  ∀ e ∈ Δ, e.location = loc ∧ ∃ p prob, e.error = .constraint p prob ∧ minLen ≤ p.length

/-- `s'` extends `s`: the path is preserved, the errors grow by appended
constraint errors, and no substitution key is ever removed. -/
def StateExt (loc : NodeData) (minLen : Nat) (s s' : UState) : Prop :=
  s'.path = s.path ∧
  (∀ v, (substGet s.subst v).isSome → (substGet s'.subst v).isSome) ∧
  ∃ Δ, s'.errors = s.errors ++ Δ ∧ errsFrom loc minLen Δ

theorem substGet_insert_isSome (s : Subst) (k : String) (t : RType) (v : String)
    (h : (substGet s v).isSome) : (substGet (substInsert s k t) v).isSome := by
  have hmap : ∀ (x : Option (String × RType)),
      (Option.map (fun p => p.2) x).isSome = x.isSome := by
    intro x; cases x <;> rfl
  simp only [substInsert, insertStr]
  split
  · rename_i hfound
    simp only [substGet] at h ⊢
    rw [hmap] at h ⊢
    rw [List.find?_isSome] at h ⊢
    obtain ⟨p, hp, hpv⟩ := h
    by_cases hpk : p.1 == k
    · refine ⟨(k, t), ?_, ?_⟩
      · rw [List.mem_map]
        exact ⟨p, hp, by simp [hpk]⟩
      · simp only [beq_iff_eq] at hpk hpv ⊢
        rw [← hpk, hpv]
    · refine ⟨p, ?_, hpv⟩
      rw [List.mem_map]
      exact ⟨p, hp, by simp [hpk]⟩
  · simp only [substGet] at h ⊢
    rw [hmap] at h ⊢
    rw [List.find?_isSome] at h ⊢
    obtain ⟨p, hp, hpv⟩ := h
    exact ⟨p, List.mem_append_left _ hp, hpv⟩

theorem stateExt_refl (loc : NodeData) (m : Nat) (s : UState) : StateExt loc m s s :=
  ⟨rfl, fun _ h => h, [], by simp, by simp [errsFrom]⟩

theorem stateExt_of_eq_parts (loc : NodeData) (m : Nat) (s s' : UState)
    (hp : s'.path = s.path) (he : s'.errors = s.errors)
    (hs : ∀ v, (substGet s.subst v).isSome → (substGet s'.subst v).isSome) :
    StateExt loc m s s' :=
  ⟨hp, hs, [], by simp [he], by simp [errsFrom]⟩

theorem stateExt_mono (loc : NodeData) {m m' : Nat} {s s' : UState}
    (hm : m' ≤ m) (h : StateExt loc m s s') : StateExt loc m' s s' := by
  obtain ⟨hp, hs, Δ, he, hΔ⟩ := h
  exact ⟨hp, hs, Δ, he, fun e hΔe => by
    obtain ⟨h1, p, prob, h2, h3⟩ := hΔ e hΔe
    exact ⟨h1, p, prob, h2, le_trans hm h3⟩⟩

theorem stateExt_trans (loc : NodeData) (m : Nat) {s s' s'' : UState}
    (h1 : StateExt loc m s s') (h2 : StateExt loc m s' s'') : StateExt loc m s s'' := by
  obtain ⟨hp1, hs1, Δ1, he1, hΔ1⟩ := h1
  obtain ⟨hp2, hs2, Δ2, he2, hΔ2⟩ := h2
  refine ⟨hp2.trans hp1, fun v hv => hs2 v (hs1 v hv), Δ1 ++ Δ2, by simp [he2, he1], ?_⟩
  intro e he
  rcases List.mem_append.mp he with h | h
  · exact hΔ1 e h
  · exact hΔ2 e h

theorem addProblem_ext (loc : NodeData) (s : UState) (p : ConstraintProblem) :
    StateExt loc s.path.length s (addProblem loc s p) :=
  ⟨rfl, fun _ h => h, [{ location := loc, error := .constraint s.path p }], rfl, by
    intro e he
    simp at he
    subst he
    exact ⟨rfl, s.path, p, rfl, le_refl _⟩⟩

theorem addProblem_path (loc : NodeData) (s : UState) (p : ConstraintProblem) :
    (addProblem loc s p).path = s.path := rfl

theorem bindVar_ext (loc : NodeData) (v : String) (ty : RType) (s : UState) :
    StateExt loc s.path.length s (bindVar loc v ty s).2 := by
  simp only [bindVar]
  split
  · exact addProblem_ext loc s _
  · split
    · split
      · exact stateExt_of_eq_parts loc _ s _ rfl rfl
          (fun w hw => substGet_insert_isSome _ _ _ w hw)
      · exact addProblem_ext loc s _
    · exact stateExt_of_eq_parts loc _ s _ rfl rfl
        (fun w hw => substGet_insert_isSome _ _ _ w hw)

theorem rebindSide_ext (loc : NodeData) (side newType : RType) (s : UState) :
    StateExt loc s.path.length s (rebindSide loc side newType s) := by
  simp only [rebindSide]
  split
  · split
    · exact addProblem_ext loc s _
    · split
      · exact addProblem_ext loc s _
      · exact stateExt_of_eq_parts loc _ s _ rfl rfl
          (fun w hw => substGet_insert_isSome _ _ _ w hw)
  · exact stateExt_refl loc _ s

theorem rebindSide_path (loc : NodeData) (side newType : RType) (s : UState) :
    (rebindSide loc side newType s).path = s.path :=
  (rebindSide_ext loc side newType s).1

theorem rebindU_ext (loc : NodeData) (l r newType : RType) (s : UState) :
    StateExt loc s.path.length s (rebindU loc l r newType s).2 := by
  have h1 := rebindSide_ext loc l newType s
  have h2 := rebindSide_ext loc r newType (rebindSide loc l newType s)
  rw [(rebindSide_ext loc l newType s).1] at h2
  exact stateExt_trans loc _ h1 h2

/-- `recurU` extends the state with errors strictly below the current
path, given the same for `unify` at the same fuel. -/
theorem recurU_ext_of (n : Nat) (loc : NodeData)
    (hu : ∀ (l r : RType) (s : UState), StateExt loc s.path.length s (unify n loc l r s).2) :
    ∀ (tl : TypeLoc) (l r : RType) (s : UState),
      StateExt loc (s.path.length + 1) s (recurU n loc tl l r s).2 := by
  intro tl l r s
  simp only [recurU]
  have h := hu l r { s with path := s.path ++ [tl] }
  obtain ⟨hp, hs, Δ, he, hΔ⟩ := h
  refine ⟨?_, hs, Δ, he, ?_⟩
  · simp only [hp]
    simp
  · intro e hΔe
    obtain ⟨h1, p, prob, h2, h3⟩ := hΔ e hΔe
    refine ⟨h1, p, prob, h2, ?_⟩
    simp at h3
    omega

theorem unifyInputs_ext_of (n : Nat) (loc : NodeData)
    (hu : ∀ (l r : RType) (s : UState), StateExt loc s.path.length s (unify n loc l r s).2) :
    ∀ (pairs : List (RType × RType)) (i : Nat) (s : UState),
      StateExt loc (s.path.length + 1) s (unifyInputs n loc i pairs s).2 := by
  have hr := recurU_ext_of n loc hu
  intro pairs
  induction pairs with
  | nil => intro i s; simp only [unifyInputs]; exact stateExt_refl loc _ s
  | cons p rest ih =>
    intro i s
    obtain ⟨eIn, aIn⟩ := p
    simp only [unifyInputs]
    rcases h1 : recurU n loc (.blockArg i) aIn eIn s with ⟨t, s1⟩
    have hx1 := hr (.blockArg i) aIn eIn s
    rw [h1] at hx1
    rcases h2 : unifyInputs n loc (i + 1) rest s1 with ⟨ts, s2⟩
    have hx2 := ih (i + 1) s1
    rw [h2] at hx2
    rw [hx1.1] at hx2
    exact stateExt_trans loc _ hx1 hx2

theorem unifyFields_ext_of (n : Nat) (loc : NodeData)
    (hu : ∀ (l r : RType) (s : UState), StateExt loc s.path.length s (unify n loc l r s).2) :
    ∀ (fl fr : List (String × Bool × RType)) (pr : Bool) (s : UState),
      StateExt loc s.path.length s (unifyFields n loc pr fl fr s).2.2 := by
  have hr := recurU_ext_of n loc hu
  intro fl
  induction fl with
  | nil => intro fr pr s; simp only [unifyFields]; exact stateExt_refl loc _ s
  | cons f fl ih =>
    intro fr pr s
    obtain ⟨name, lopt, lty⟩ := f
    simp only [unifyFields]
    split
    · split
      · have h1 := addProblem_ext loc s (.fieldMissing name)
        have h2 := ih fr pr (addProblem loc s (.fieldMissing name))
        rw [addProblem_path loc s _] at h2
        exact stateExt_trans loc _ h1 h2
      · rcases h2 : unifyFields n loc pr fl fr s with ⟨fields, rem, s2⟩
        have hx := ih fr pr s
        rw [h2] at hx
        exact hx
    · rename_i ropt rty frRest heq
      have hx1 : StateExt loc s.path.length s
          (if !lopt && ropt then addProblem loc s (.fieldOptional name) else s) := by
        split
        · exact addProblem_ext loc s _
        · exact stateExt_refl loc _ s
      set s1 := if !lopt && ropt then addProblem loc s (.fieldOptional name) else s with hs1
      rcases h2 : recurU n loc (.field name) lty rty s1 with ⟨newTy, s2⟩
      have hx2 := hr (.field name) lty rty s1
      rw [h2] at hx2
      rcases h3 : unifyFields n loc pr fl frRest s2 with ⟨fields, rem, s3⟩
      have hx3 := ih frRest pr s2
      rw [h3] at hx3
      have hp1 : s1.path = s.path := by
        rw [hs1]; split <;> rfl
      rw [hp1] at hx2
      have hx2' := stateExt_mono loc (Nat.le_succ _) hx2
      rw [hx2.1, hp1] at hx3
      exact stateExt_trans loc _ hx1 (stateExt_trans loc _ hx2' hx3)

/-- `Unifier::unify` only appends `Constraint` errors located at the
current node, whose paths extend the current path; the path itself is
restored. -/
theorem unify_state_extends : ∀ (fuel : Nat) (loc : NodeData) (l r : RType) (s : UState),
    StateExt loc s.path.length s (unify fuel loc l r s).2 := by
  intro fuel
  induction fuel with
  | zero => intro loc l r s; simp only [unify]; exact stateExt_refl loc _ s
  | succ n ih =>
    intro loc l r s
    simp only [unify]
    split
    · exact stateExt_refl loc _ s
    · split
      · exact bindVar_ext loc _ _ s
      · exact bindVar_ext loc _ _ s
      · exact stateExt_mono loc (Nat.le_succ _) (recurU_ext_of n loc (ih loc) _ _ _ s)
      · rename_i pl fl pr fr hl hr2
        rcases h1 : unifyFields n loc pr fl fr s with ⟨fields, rem, s1⟩
        have hx1 := unifyFields_ext_of n loc (ih loc) fl fr pr s
        rw [h1] at hx1
        have hx2 := rebindU_ext loc l r
          (.record pl (if pl then fields ++ applySubstFields s1.subst rem else fields)) s1
        rw [hx1.1] at hx2
        exact stateExt_trans loc _ hx1 hx2
      · rename_i li lo ri ro hl hr2
        have hx1 : StateExt loc s.path.length s
            (if li.length > ri.length then addProblem loc s (.blockArity ri.length li.length) else s) := by
          split
          · exact addProblem_ext loc s _
          · exact stateExt_refl loc _ s
        set s1 := if li.length > ri.length then addProblem loc s (.blockArity ri.length li.length) else s with hs1
        have hp1 : s1.path = s.path := by rw [hs1]; split <;> rfl
        rcases h2 : unifyInputs n loc 0 (li.zip ri) s1 with ⟨inputs, s2⟩
        have hx2 := unifyInputs_ext_of n loc (ih loc) (li.zip ri) 0 s1
        rw [h2] at hx2
        rcases h3 : recurU n loc .blockBody lo ro s2 with ⟨outT, s3⟩
        have hx3 := recurU_ext_of n loc (ih loc) .blockBody lo ro s2
        rw [h3] at hx3
        have hx2' := stateExt_mono loc (Nat.le_succ _) hx2
        have hx3' := stateExt_mono loc (Nat.le_succ _) hx3
        rw [hp1] at hx2'
        rw [hx2.1, hp1] at hx3'
        exact stateExt_trans loc _ hx1 (stateExt_trans loc _ hx2' hx3')
      · exact stateExt_refl loc _ s
      · exact stateExt_refl loc _ s
      · exact addProblem_ext loc s _


theorem unifyInputs_spec (n : Nat) (loc : NodeData) :
    ∀ (pairs : List (RType × RType)) (i : Nat) (s : UState),
      (unifyInputs n loc i pairs s).1.length = pairs.length ∧
      ∀ j, j < pairs.length → ∃ (sj : UState) (pj : RType × RType),
        pairs[j]? = some pj ∧ sj.path = s.path ∧
        (unifyInputs n loc i pairs s).1[j]? =
          some ((unify n loc pj.2 pj.1 { sj with path := sj.path ++ [.blockArg (i + j)] }).1) := by
  intro pairs
  induction pairs with
  | nil => intro i s; simp [unifyInputs]
  | cons p rest ih =>
    intro i s
    obtain ⟨eIn, aIn⟩ := p
    simp only [unifyInputs]
    rcases h1 : recurU n loc (.blockArg i) aIn eIn s with ⟨t, s1⟩
    rcases h2 : unifyInputs n loc (i + 1) rest s1 with ⟨ts, s2⟩
    have hlen : ts.length = rest.length := by
      have := (ih (i + 1) s1).1
      rw [h2] at this
      exact this
    refine ⟨by simp [hlen], ?_⟩
    intro j hj
    match j, hj with
    | 0, _ =>
      refine ⟨s, (eIn, aIn), by simp, rfl, ?_⟩
      simp only [List.getElem?_cons_zero, Option.some.injEq, Nat.add_zero]
      have := congrArg Prod.fst h1
      simp only [recurU] at this
      rw [← this]
    | j + 1, hj =>
      have hjr : j < rest.length := by simpa using hj
      obtain ⟨sj, pj, hpj, hpath, hval⟩ := (ih (i + 1) s1).2 j hjr
      rw [h2] at hval
      have hs1path : s1.path = s.path := by
        have := (recurU_ext_of n loc (fun a b st => unify_state_extends n loc a b st)
          (.blockArg i) aIn eIn s).1
        rw [h1] at this
        exact this
      refine ⟨sj, pj, by simpa using hpj, hpath.trans hs1path, ?_⟩
      simp only [List.getElem?_cons_succ]
      rw [hval]
      have : i + 1 + j = i + (j + 1) := by omega
      rw [this]

/-- C5: when the unifier processes a constraint whose two (substituted)
sides are block types, a `BlockArity` error at the current path is
reported if and only if the left block has strictly more input types than
the right; the corresponding input pairs are unified with the pair
ordering inverted (the right block's input becomes the left operand of the
recursive `unify`, under a `BlockArg j` path entry), and the two output
types are unified recursively under `BlockBody`. -/
theorem unify_block_arity_and_inverted_inputs
    (fuel : Nat) (loc : NodeData) (left right : RType) (s : UState)
    (li : List RType) (lo : RType) (ri : List RType) (ro : RType)
    (hL : applySubst s.subst left = .block li lo)
    (hR : applySubst s.subst right = .block ri ro)
    (hne : RType.beq (.block li lo) (.block ri ro) = false) :
    ∃ (inputs : List RType) (outT : RType) (Δ : List TypeError),
      (unify (fuel + 1) loc left right s).1 = .block inputs outT ∧
      (unify (fuel + 1) loc left right s).2.errors = s.errors ++ Δ ∧
      ((⟨loc, .constraint s.path (.blockArity ri.length li.length)⟩ : TypeError) ∈ Δ ↔
        li.length > ri.length) ∧
      inputs.length = min li.length ri.length ∧
      (∀ j, j < min li.length ri.length →
        ∃ (sj : UState) (a b : RType), sj.path = s.path ∧ li[j]? = some a ∧ ri[j]? = some b ∧
          inputs[j]? =
            some ((unify fuel loc b a { sj with path := sj.path ++ [.blockArg j] }).1)) ∧
      (∃ so : UState, so.path = s.path ∧
        outT = (unify fuel loc lo ro { so with path := so.path ++ [.blockBody] }).1) := by
  simp only [unify, hL, hR]
  rw [if_neg (by simp [hne])]
  set s1 := if li.length > ri.length then addProblem loc s (.blockArity ri.length li.length) else s
    with hs1
  have hp1 : s1.path = s.path := by rw [hs1]; split <;> rfl
  have hsub1 : s1.subst = s.subst := by rw [hs1]; split <;> rfl
  rcases h2 : unifyInputs fuel loc 0 (li.zip ri) s1 with ⟨inputs, s2⟩
  rcases h3 : recurU fuel loc .blockBody lo ro s2 with ⟨outT, s3⟩
  have hx2 := unifyInputs_ext_of fuel loc (fun a b st => unify_state_extends fuel loc a b st)
    (li.zip ri) 0 s1
  rw [h2] at hx2
  have hx3 := recurU_ext_of fuel loc (fun a b st => unify_state_extends fuel loc a b st)
    .blockBody lo ro s2
  rw [h3] at hx3
  obtain ⟨hp2, _, Δ2, he2, hΔ2⟩ := hx2
  obtain ⟨hp3, _, Δ3, he3, hΔ3⟩ := hx3
  have hspec := unifyInputs_spec fuel loc (li.zip ri) 0 s1
  rw [h2] at hspec
  refine ⟨inputs, outT, (if li.length > ri.length
      then [⟨loc, .constraint s.path (.blockArity ri.length li.length)⟩] else []) ++ Δ2 ++ Δ3,
    rfl, ?_, ?_, ?_, ?_, ?_⟩
  · rw [he3, he2, hs1]
    by_cases hcond : li.length > ri.length
    · rw [if_pos hcond, if_pos hcond]
      simp [addProblem]
    · rw [if_neg hcond, if_neg hcond]
      simp
  · constructor
    · intro hmem
      rcases List.mem_append.mp hmem with hmem1 | hmem3
      · rcases List.mem_append.mp hmem1 with hmem0 | hmem2
        · by_cases hcond : li.length > ri.length
          · exact hcond
          · rw [if_neg hcond] at hmem0
            simp at hmem0
        · exfalso
          obtain ⟨_, p, prob, hperr, hplen⟩ := hΔ2 _ hmem2
          simp only [TypeError.mk.injEq] at hperr
          have hpeq : p = s.path ∧ prob = .blockArity ri.length li.length := by
            have := hperr
            injection this with h1 h2
            exact ⟨h1.symm, h2.symm⟩
          rw [hpeq.1] at hplen
          rw [hp1] at hplen
          omega
      · exfalso
        obtain ⟨_, p, prob, hperr, hplen⟩ := hΔ3 _ hmem3
        injection hperr with h1 h2
        rw [← h1] at hplen
        rw [hp2, hp1] at hplen
        omega
    · intro hcond
      apply List.mem_append_left
      apply List.mem_append_left
      rw [if_pos hcond]
      simp
  · rw [hspec.1]
    simp
  · intro j hj
    have hjz : j < (li.zip ri).length := by simp; omega
    obtain ⟨sj, pj, hpj, hpath, hval⟩ := hspec.2 j hjz
    obtain ⟨a, b⟩ := pj
    have hab : li[j]? = some a ∧ ri[j]? = some b := by
      have hza := List.getElem?_zip_eq_some.mp hpj
      exact hza
    exact ⟨sj, a, b, hpath.trans hp1, hab.1, hab.2, by simpa using hval⟩
  · refine ⟨s2, hp2.trans hp1, ?_⟩
    have := congrArg Prod.fst h3
    simp only [recurU] at this
    rw [← this]

/-- Witness for C5 at a concrete constraint: unifying
`Block([Num]) -> Num` with `Block([]) -> Bool` in the empty state reports a
`BlockArity 0 1` error at the empty path. -/
theorem unify_block_arity_and_inverted_inputs_witness :
    ∃ (inputs : List RType) (outT : RType) (Δ : List TypeError),
      (unify 1 ⟨.apply, 0, 0⟩ (.block [.num] .num) (.block [] .bool) ⟨[], [], []⟩).1
          = .block inputs outT ∧
      (unify 1 ⟨.apply, 0, 0⟩ (.block [.num] .num) (.block [] .bool) ⟨[], [], []⟩).2.errors
          = [] ++ Δ ∧
      ((⟨⟨.apply, 0, 0⟩, .constraint [] (.blockArity 0 1)⟩ : TypeError) ∈ Δ ↔ 1 > 0) ∧
      inputs.length = min 1 0 ∧
      (∀ j, j < min 1 0 →
        ∃ (sj : UState) (a b : RType), sj.path = [] ∧ [RType.num][j]? = some a ∧
          ([] : List RType)[j]? = some b ∧
          inputs[j]? = some ((unify 0 ⟨.apply, 0, 0⟩ b a
            { sj with path := sj.path ++ [.blockArg j] }).1)) ∧
      (∃ so : UState, so.path = [] ∧
        outT = (unify 0 ⟨.apply, 0, 0⟩ .num .bool { so with path := so.path ++ [.blockBody] }).1) :=
  unify_block_arity_and_inverted_inputs 0 ⟨.apply, 0, 0⟩ (.block [.num] .num)
    (.block [] .bool) ⟨[], [], []⟩ [.num] .num [] .bool
    (by simp [applySubst, applySubstList]) (by simp [applySubst, applySubstList])
    (by simp [RType.beq, beqList])


theorem find?_key_cons {β : Type} (e : String × β) (l : List (String × β)) (k : String) :
    List.find? (fun p => p.1 == k) (e :: l) =
      if e.1 == k then some e else List.find? (fun p => p.1 == k) l := by
  by_cases he : (e.1 == k)
  · rw [if_pos he]; exact List.find?_cons_of_pos _ he
  · rw [if_neg he]; exact List.find?_cons_of_neg _ he

theorem eraseP_key_cons {β : Type} (e : String × β) (l : List (String × β)) (k : String) :
    List.eraseP (fun p => p.1 == k) (e :: l) =
      if e.1 == k then l else e :: List.eraseP (fun p => p.1 == k) l := by
  by_cases he : (e.1 == k)
  · rw [if_pos he]; exact List.eraseP_cons_of_pos he
  · rw [if_neg he]; exact List.eraseP_cons_of_neg (by simpa using he)

theorem lookupF_cons (e : String × Bool × RType) (fs : List (String × Bool × RType))
    (m : String) :
    lookupF (e :: fs) m = if e.1 == m then some e.2 else lookupF fs m := by
  simp only [lookupF]
  rw [find?_key_cons]
  by_cases he : (e.1 == m)
  · rw [if_pos he, if_pos he]
    rfl
  · rw [if_neg he, if_neg he]

theorem lookupF_eq_none_of_not_mem (fs : List (String × Bool × RType)) (m : String)
    (h : m ∉ fs.map (fun e => e.1)) : lookupF fs m = none := by
  have : fs.find? (fun p => p.1 == m) = none := by
    rw [List.find?_eq_none]
    intro x hx
    simp only [beq_iff_eq]
    intro hx1
    exact h (by rw [← hx1]; exact List.mem_map_of_mem _ hx)
  simp [lookupF, this]

theorem lookupF_eraseP_ne (fr : List (String × Bool × RType)) (name m : String)
    (hne : m ≠ name) :
    lookupF (fr.eraseP (fun p => p.1 == name)) m = lookupF fr m := by
  induction fr with
  | nil => rfl
  | cons e fr ih =>
    rw [eraseP_key_cons]
    by_cases hp : (e.1 == name)
    · rw [if_pos hp]
      have hm : ¬ (e.1 == m) = true := by
        simp only [beq_iff_eq] at hp ⊢
        rw [hp]
        exact fun hc => hne hc.symm
      rw [lookupF_cons, if_neg hm]
    · rw [if_neg hp, lookupF_cons, lookupF_cons]
      by_cases hm : (e.1 == m)
      · rw [if_pos hm, if_pos hm]
      · rw [if_neg hm, if_neg hm]
        exact ih

theorem lookupF_eraseP_self (fr : List (String × Bool × RType)) (name : String)
    (hfr : (fr.map (fun e => e.1)).Nodup) :
    lookupF (fr.eraseP (fun p => p.1 == name)) name = none := by
  induction fr with
  | nil => rfl
  | cons e fr ih =>
    rw [List.map_cons, List.nodup_cons] at hfr
    rw [eraseP_key_cons]
    by_cases hp : (e.1 == name)
    · rw [if_pos hp]
      apply lookupF_eq_none_of_not_mem
      have he1 : e.1 = name := by simpa using hp
      rw [← he1]
      exact hfr.1
    · rw [if_neg hp, lookupF_cons, if_neg hp]
      exact ih hfr.2

theorem nodup_names_eraseP (fr : List (String × Bool × RType))
    (p : String × Bool × RType → Bool) (h : (fr.map (fun e => e.1)).Nodup) :
    ((fr.eraseP p).map (fun e => e.1)).Nodup :=
  h.sublist ((fr.eraseP_sublist).map _)

theorem extractField_eq_none (fr : List (String × Bool × RType)) (n : String) :
    extractField fr n = none ↔ lookupF fr n = none := by
  cases h : lookupF fr n <;> simp [extractField, h]

theorem extractField_eq_some (fr : List (String × Bool × RType)) (n : String)
    (v : Bool × RType) (rest : List (String × Bool × RType)) :
    extractField fr n = some (v, rest) ↔
      lookupF fr n = some v ∧ rest = fr.eraseP (fun p => p.1 == n) := by
  cases h : lookupF fr n
  · simp [extractField, h]
  · simp only [extractField, h, Option.some.injEq, Prod.mk.injEq]
    constructor
    · rintro ⟨h1, h2⟩
      exact ⟨by rw [h1], h2.symm⟩
    · rintro ⟨h1, h2⟩
      exact ⟨h1, h2.symm⟩

theorem find?_key_map_insert (s : Subst) (k : String) (t : RType) (v : String)
    (hvk : v ≠ k) :
    List.find? (fun p => p.1 == v) (s.map fun p => if p.1 == k then (k, t) else p)
      = List.find? (fun p => p.1 == v) s := by
  induction s with
  | nil => rfl
  | cons e s ih =>
    rw [List.map_cons]
    by_cases hek : (e.1 == k)
    · rw [if_pos hek, find?_key_cons, find?_key_cons]
      have h1 : ¬ ((k, t).1 == v) = true := by
        simp only [beq_iff_eq]
        exact fun h => hvk h.symm
      have h2 : ¬ (e.1 == v) = true := by
        simp only [beq_iff_eq]
        have he : e.1 = k := by simpa using hek
        rw [he]
        exact fun h => hvk h.symm
      rw [if_neg h1, if_neg h2]
      exact ih
    · rw [if_neg hek, find?_key_cons, find?_key_cons]
      by_cases hev : (e.1 == v)
      · rw [if_pos hev, if_pos hev]
      · rw [if_neg hev, if_neg hev]
        exact ih

theorem find?_key_map_insert_self (s : Subst) (k : String) (t : RType)
    (hc : (s.find? (fun p => p.1 == k)).isSome = true) :
    List.find? (fun p => p.1 == k) (s.map fun p => if p.1 == k then (k, t) else p)
      = some (k, t) := by
  induction s with
  | nil => simp at hc
  | cons e s ih =>
    rw [List.map_cons]
    rw [find?_key_cons] at hc
    by_cases hek : (e.1 == k)
    · rw [if_pos hek, find?_key_cons, if_pos (show ((k, t).1 == k) = true by simp)]
    · rw [if_neg hek] at hc
      rw [if_neg hek, find?_key_cons, if_neg hek]
      exact ih hc

theorem find?_key_append_single (s : Subst) (k : String) (t : RType) (v : String)
    (hvk : v ≠ k) :
    List.find? (fun p => p.1 == v) (s ++ [(k, t)]) = List.find? (fun p => p.1 == v) s := by
  induction s with
  | nil =>
    simp only [List.nil_append, List.find?_nil]
    rw [find?_key_cons, if_neg (show ¬ (((k, t) : String × RType).1 == v) = true by
      simp only [beq_iff_eq]; exact fun h => hvk h.symm)]
    rfl
  | cons e s ih =>
    rw [List.cons_append, find?_key_cons, find?_key_cons]
    by_cases hev : (e.1 == v)
    · rw [if_pos hev, if_pos hev]
    · rw [if_neg hev, if_neg hev]
      exact ih

theorem find?_key_append_self (s : Subst) (k : String) (t : RType)
    (hc : ¬ (s.find? (fun p => p.1 == k)).isSome = true) :
    List.find? (fun p => p.1 == k) (s ++ [(k, t)]) = some (k, t) := by
  induction s with
  | nil =>
    simp only [List.nil_append]
    rw [find?_key_cons, if_pos (show (((k, t) : String × RType).1 == k) = true by simp)]
  | cons e s ih =>
    rw [find?_key_cons] at hc
    by_cases hek : (e.1 == k)
    · rw [if_pos hek] at hc
      simp at hc
    · rw [if_neg hek] at hc
      rw [List.cons_append, find?_key_cons, if_neg hek]
      exact ih hc

theorem substGet_insert_self (s : Subst) (k : String) (t : RType) :
    substGet (substInsert s k t) k = some t := by
  simp only [substInsert, insertStr]
  by_cases hc : ((s.find? fun p => p.1 == k)).isSome = true
  · rw [if_pos hc]
    simp only [substGet]
    rw [find?_key_map_insert_self s k t hc]
    rfl
  · rw [if_neg hc]
    simp only [substGet]
    rw [find?_key_append_self s k t hc]
    rfl

theorem substGet_insert_ne (s : Subst) (k : String) (t : RType) (v : String)
    (hvk : v ≠ k) : substGet (substInsert s k t) v = substGet s v := by
  simp only [substInsert, insertStr]
  by_cases hc : ((s.find? fun p => p.1 == k)).isSome = true
  · rw [if_pos hc]
    simp only [substGet]
    rw [find?_key_map_insert s k t v hvk]
  · rw [if_neg hc]
    simp only [substGet]
    rw [find?_key_append_single s k t v hvk]

theorem rebindSide_var_binds (loc : NodeData) (v : String) (newType : RType) (st : UState)
    (hc : containsVar newType v = false) (hs : (substGet st.subst v).isSome) :
    substGet (rebindSide loc (.var v) newType st).subst v = some newType := by
  simp only [rebindSide]
  rw [if_neg (by simp [hc]), if_neg (show ¬ ((substGet st.subst v).isNone = true) from by
    cases h : substGet st.subst v
    · rw [h] at hs; simp at hs
    · simp)]
  exact substGet_insert_self _ _ _

theorem rebindSide_subst_preserve (loc : NodeData) (side newType : RType) (st : UState)
    (v : String) (h : ∀ w, side = .var w → w ≠ v) :
    substGet (rebindSide loc side newType st).subst v = substGet st.subst v := by
  cases side with
  | var w =>
    simp only [rebindSide]
    split
    · rfl
    · split
      · rfl
      · exact substGet_insert_ne _ _ _ _ (fun hvw => h w rfl hvw.symm)
  | any => rfl
  | never => rfl
  | num => rfl
  | str => rfl
  | bool => rfl
  | time => rfl
  | money => rfl
  | list a => rfl
  | record p f => rfl
  | block i o => rfl


theorem rem_lookup_lift (name m : String) (names' : List String)
    (FR fr : List (String × Bool × RType))
    (hnone : lookupF FR name = none)
    (hsame : ∀ k, k ≠ name → lookupF FR k = lookupF fr k) :
    (if names'.contains m then none else lookupF FR m) =
      (if (name :: names').contains m then none else lookupF fr m) := by
  by_cases hm : m = name
  · subst hm
    rw [if_pos (show ((m :: names').contains m) = true by simp)]
    by_cases hc : names'.contains m = true
    · rw [if_pos hc]
    · rw [if_neg hc]; exact hnone
  · rw [show ((name :: names').contains m) = names'.contains m from by
      simp only [List.contains_cons, show (m == name) = false from by simpa using hm,
        Bool.false_or]]
    by_cases hc : names'.contains m = true
    · rw [if_pos hc, if_pos hc]
    · rw [if_neg hc, if_neg hc]; exact hsame m hm

/-- The unmatched right fields returned by `unifyFields` are exactly the
right fields whose name is not a left field name. -/
theorem unifyFields_rem (n : Nat) (loc : NodeData) (pr : Bool) :
    ∀ (fl fr : List (String × Bool × RType)) (s : UState),
      (fl.map (fun e => e.1)).Nodup → (fr.map (fun e => e.1)).Nodup →
      ∀ m, lookupF (unifyFields n loc pr fl fr s).2.1 m =
        if (fl.map (fun e => e.1)).contains m then none else lookupF fr m := by
  intro fl
  induction fl with
  | nil =>
    intro fr s hfl hfr m
    simp [unifyFields]
  | cons hd fl ih =>
    obtain ⟨name, lopt, lty⟩ := hd
    intro fr s hfl hfr m
    rw [List.map_cons, List.nodup_cons] at hfl
    obtain ⟨hname, hfl'⟩ := hfl
    simp only [unifyFields, List.map_cons]
    split
    · rename_i hex
      have hlk : lookupF fr name = none := (extractField_eq_none fr name).mp hex
      split
      · rw [ih fr _ hfl' hfr m]
        exact rem_lookup_lift name m _ fr fr hlk (fun _ _ => rfl)
      · rcases hu : unifyFields n loc pr fl fr s with ⟨fields2, rem2, s2⟩
        have hihm := ih fr s hfl' hfr m
        rw [hu] at hihm
        show lookupF rem2 m = _
        rw [show ((fields2, rem2, s2) :
            List (String × Bool × RType) × List (String × Bool × RType) × UState).2.1
            = rem2 from rfl] at hihm
        rw [hihm]
        exact rem_lookup_lift name m _ fr fr hlk (fun _ _ => rfl)
    · rename_i ropt rty frRest hex
      obtain ⟨hlk, hrest⟩ := (extractField_eq_some fr name (ropt, rty) frRest).mp hex
      rcases hrec : recurU n loc (.field name) lty rty
          (if !lopt && ropt then addProblem loc s (.fieldOptional name) else s)
        with ⟨newTy, s2⟩
      rcases hu : unifyFields n loc pr fl frRest s2 with ⟨fields2, rem2, s3⟩
      have hfr2 : (frRest.map (fun e => e.1)).Nodup := by
        rw [hrest]; exact nodup_names_eraseP fr _ hfr
      have hihm := ih frRest s2 hfl' hfr2 m
      rw [hu] at hihm
      show lookupF rem2 m = _
      rw [show ((fields2, rem2, s3) :
          List (String × Bool × RType) × List (String × Bool × RType) × UState).2.1
          = rem2 from rfl] at hihm
      rw [hihm]
      refine rem_lookup_lift name m _ frRest fr ?_ ?_
      · rw [hrest]; exact lookupF_eraseP_self fr name hfr
      · intro k hk
        rw [hrest]; exact lookupF_eraseP_ne fr name k hk


/-- The merged fields of `unifyFields`: left-to-right, a left field absent on
the right is dropped exactly when required against a non-partial right record
and kept (substituted) otherwise, and a left field present on the right keeps
the left optionality and gets the recursive unification result under a
`Field` path entry. -/
theorem unifyFields_fields (n : Nat) (loc : NodeData) (pr : Bool) :
    ∀ (fl fr : List (String × Bool × RType)) (s : UState),
      (fl.map (fun e => e.1)).Nodup → (fr.map (fun e => e.1)).Nodup →
      ((unifyFields n loc pr fl fr s).1.map (fun e => (e.1, e.2.1)) =
        fl.filterMap (fun e => if (lookupF fr e.1).isNone && !e.2.1 && !pr then none
          else some (e.1, e.2.1))) ∧
      (∀ m lopt lty, (m, lopt, lty) ∈ fl → ∀ ropt rty, lookupF fr m = some (ropt, rty) →
        ∃ sj : UState, sj.path = s.path ∧
          (m, lopt, (unify n loc lty rty { sj with path := s.path ++ [.field m] }).1)
            ∈ (unifyFields n loc pr fl fr s).1) ∧
      (∀ m lopt lty, (m, lopt, lty) ∈ fl → lookupF fr m = none → (lopt = true ∨ pr = true) →
        ∃ sj : UState, sj.path = s.path ∧
          (m, lopt, applySubst sj.subst lty) ∈ (unifyFields n loc pr fl fr s).1) := by
  intro fl
  induction fl with
  | nil =>
    intro fr s hfl hfr
    refine ⟨by simp [unifyFields], ?_, ?_⟩ <;> intro m lopt lty hmem <;> simp at hmem
  | cons hd fl ih =>
    obtain ⟨name, lopt, lty⟩ := hd
    intro fr s hfl hfr
    rw [List.map_cons, List.nodup_cons] at hfl
    obtain ⟨hname, hfl'⟩ := hfl
    have hmemName : ∀ (m : String) (o : Bool) (t : RType), (m, o, t) ∈ fl → m ≠ name := by
      intro m o t hmem hc
      apply hname
      rw [← hc]
      exact (show m ∈ fl.map (fun e => e.1) from List.mem_map_of_mem (fun e => e.1) hmem)
    simp only [unifyFields]
    split
    · rename_i hex
      have hlk : lookupF fr name = none := (extractField_eq_none fr name).mp hex
      split
      · rename_i hcond
        obtain ⟨hlopt, hpr⟩ : lopt = false ∧ pr = false := by simpa using hcond
        obtain ⟨hskel, hmat, hkept⟩ :=
          ih fr (addProblem loc s (.fieldMissing name)) hfl' hfr
        refine ⟨?_, ?_, ?_⟩
        · rw [show (((name, lopt, lty) :: fl).filterMap (fun e =>
              if (lookupF fr e.1).isNone && !e.2.1 && !pr then none
              else some (e.1, e.2.1)))
            = fl.filterMap (fun e =>
              if (lookupF fr e.1).isNone && !e.2.1 && !pr then none
              else some (e.1, e.2.1)) from by
            rw [List.filterMap_cons]
            simp [hlk, hlopt, hpr]]
          exact hskel
        · intro m lopt2 lty2 hmem ropt2 rty2 hlkm
          rcases List.mem_cons.mp hmem with heq | hmem2
          · exfalso
            obtain ⟨h1, h2, h3⟩ : m = name ∧ lopt2 = lopt ∧ lty2 = lty := by simpa using heq
            rw [h1, hlk] at hlkm
            simp at hlkm
          · obtain ⟨sj, hsjp, hsm⟩ := hmat m lopt2 lty2 hmem2 ropt2 rty2 hlkm
            exact ⟨sj, hsjp, hsm⟩
        · intro m lopt2 lty2 hmem hlkm hor
          rcases List.mem_cons.mp hmem with heq | hmem2
          · exfalso
            obtain ⟨h1, h2, h3⟩ : m = name ∧ lopt2 = lopt ∧ lty2 = lty := by simpa using heq
            rcases hor with hlo | hp2
            · rw [h2, hlopt] at hlo
              exact Bool.false_ne_true hlo
            · rw [hpr] at hp2
              exact Bool.false_ne_true hp2
          · obtain ⟨sj, hsjp, hsm⟩ := hkept m lopt2 lty2 hmem2 hlkm hor
            exact ⟨sj, hsjp, hsm⟩
      · rename_i hcond
        have hIf : (!lopt && !pr) = false := by simpa using hcond
        rcases hu : unifyFields n loc pr fl fr s with ⟨fields2, rem2, s2⟩
        obtain ⟨hskel, hmat, hkept⟩ := ih fr s hfl' hfr
        rw [hu] at hskel hmat hkept
        rw [show ((fields2, rem2, s2) :
            List (String × Bool × RType) × List (String × Bool × RType) × UState).1
            = fields2 from rfl] at hskel hmat hkept
        refine ⟨?_, ?_, ?_⟩
        · rw [show (((name, lopt, lty) :: fl).filterMap (fun e =>
              if (lookupF fr e.1).isNone && !e.2.1 && !pr then none
              else some (e.1, e.2.1)))
            = (name, lopt) :: fl.filterMap (fun e =>
              if (lookupF fr e.1).isNone && !e.2.1 && !pr then none
              else some (e.1, e.2.1)) from by
            rw [List.filterMap_cons]
            simp [hlk, hIf]]
          show ((name, lopt, applySubst s.subst lty) :: fields2).map (fun e => (e.1, e.2.1)) = _
          simp only [List.map_cons]
          rw [hskel]
        · intro m lopt2 lty2 hmem ropt2 rty2 hlkm
          rcases List.mem_cons.mp hmem with heq | hmem2
          · exfalso
            obtain ⟨h1, h2, h3⟩ : m = name ∧ lopt2 = lopt ∧ lty2 = lty := by simpa using heq
            rw [h1, hlk] at hlkm
            simp at hlkm
          · obtain ⟨sj, hsjp, hsm⟩ := hmat m lopt2 lty2 hmem2 ropt2 rty2 hlkm
            exact ⟨sj, hsjp, List.mem_cons_of_mem _ hsm⟩
        · intro m lopt2 lty2 hmem hlkm hor
          rcases List.mem_cons.mp hmem with heq | hmem2
          · obtain ⟨h1, h2, h3⟩ : m = name ∧ lopt2 = lopt ∧ lty2 = lty := by simpa using heq
            subst h1; subst h2; subst h3
            exact ⟨s, rfl, List.mem_cons_self _ _⟩
          · obtain ⟨sj, hsjp, hsm⟩ := hkept m lopt2 lty2 hmem2 hlkm hor
            exact ⟨sj, hsjp, List.mem_cons_of_mem _ hsm⟩
    · rename_i ropt rty frRest hex
      obtain ⟨hlk, hrest⟩ := (extractField_eq_some fr name (ropt, rty) frRest).mp hex
      rcases hrec : recurU n loc (.field name) lty rty
          (if !lopt && ropt then addProblem loc s (.fieldOptional name) else s)
        with ⟨newTy, s2⟩
      rcases hu : unifyFields n loc pr fl frRest s2 with ⟨fields2, rem2, s3⟩
      have hpB : (if !lopt && ropt then addProblem loc s (.fieldOptional name) else s).path
          = s.path := by split <;> rfl
      have hx2 := recurU_ext_of n loc (fun a b st => unify_state_extends n loc a b st)
        (.field name) lty rty
        (if !lopt && ropt then addProblem loc s (.fieldOptional name) else s)
      rw [hrec] at hx2
      have hp2 : s2.path = s.path := hx2.1.trans hpB
      have hfr2 : (frRest.map (fun e => e.1)).Nodup := by
        rw [hrest]; exact nodup_names_eraseP fr _ hfr
      obtain ⟨hskel, hmat, hkept⟩ := ih frRest s2 hfl' hfr2
      rw [hu] at hskel hmat hkept
      rw [show ((fields2, rem2, s3) :
          List (String × Bool × RType) × List (String × Bool × RType) × UState).1
          = fields2 from rfl] at hskel hmat hkept
      have htail : fl.filterMap (fun e =>
            if (lookupF frRest e.1).isNone && !e.2.1 && !pr then none
            else some (e.1, e.2.1))
          = fl.filterMap (fun e =>
            if (lookupF fr e.1).isNone && !e.2.1 && !pr then none
            else some (e.1, e.2.1)) := by
        refine List.filterMap_congr ?_
        intro e he
        have hne : e.1 ≠ name := by
          intro hc
          apply hname
          have h3 : e.1 ∈ fl.map (fun e => e.1) := List.mem_map_of_mem (fun e => e.1) he
          rw [hc] at h3
          exact h3
        rw [hrest, lookupF_eraseP_ne fr name e.1 hne]
      refine ⟨?_, ?_, ?_⟩
      · rw [show (((name, lopt, lty) :: fl).filterMap (fun e =>
            if (lookupF fr e.1).isNone && !e.2.1 && !pr then none
            else some (e.1, e.2.1)))
          = (name, lopt) :: fl.filterMap (fun e =>
            if (lookupF fr e.1).isNone && !e.2.1 && !pr then none
            else some (e.1, e.2.1)) from by
          rw [List.filterMap_cons]
          simp [hlk]]
        show ((name, lopt, newTy) :: fields2).map (fun e => (e.1, e.2.1)) = _
        simp only [List.map_cons]
        rw [hskel, htail]
      · intro m lopt2 lty2 hmem ropt2 rty2 hlkm
        rcases List.mem_cons.mp hmem with heq | hmem2
        · obtain ⟨h1, h2, h3⟩ : m = name ∧ lopt2 = lopt ∧ lty2 = lty := by simpa using heq
          subst h1; subst h2; subst h3
          rw [hlk] at hlkm
          obtain ⟨h4, h5⟩ : ropt = ropt2 ∧ rty = rty2 := by simpa using hlkm
          subst h5
          refine ⟨(if !lopt2 && ropt then addProblem loc s (.fieldOptional m) else s), hpB, ?_⟩
          have hnew := congrArg Prod.fst hrec
          simp only [recurU] at hnew
          rw [hpB] at hnew
          rw [hnew]
          exact List.mem_cons_self _ _
        · have hne : m ≠ name := hmemName m lopt2 lty2 hmem2
          have hlkm2 : lookupF frRest m = some (ropt2, rty2) := by
            rw [hrest, lookupF_eraseP_ne fr name m hne]
            exact hlkm
          obtain ⟨sj, hsjp, hsm⟩ := hmat m lopt2 lty2 hmem2 ropt2 rty2 hlkm2
          rw [hp2] at hsjp hsm
          exact ⟨sj, hsjp, List.mem_cons_of_mem _ hsm⟩
      · intro m lopt2 lty2 hmem hlkm hor
        rcases List.mem_cons.mp hmem with heq | hmem2
        · exfalso
          obtain ⟨h1, h2, h3⟩ : m = name ∧ lopt2 = lopt ∧ lty2 = lty := by simpa using heq
          rw [h1, hlk] at hlkm
          simp at hlkm
        · have hne : m ≠ name := hmemName m lopt2 lty2 hmem2
          have hlkm2 : lookupF frRest m = none := by
            rw [hrest, lookupF_eraseP_ne fr name m hne]
            exact hlkm
          obtain ⟨sj, hsjp, hsm⟩ := hkept m lopt2 lty2 hmem2 hlkm2 hor
          rw [hp2] at hsjp
          exact ⟨sj, hsjp, List.mem_cons_of_mem _ hsm⟩


/-- The errors appended by `unifyFields` at the current path: `FieldOptional`
exactly for the fields required on the left but optional on the right, and
`FieldMissing` exactly for the fields required on the left, absent on the
right, when the right record is not partial. -/
theorem unifyFields_errors (n : Nat) (loc : NodeData) (pr : Bool) :
    ∀ (fl fr : List (String × Bool × RType)) (s : UState),
      (fl.map (fun e => e.1)).Nodup → (fr.map (fun e => e.1)).Nodup →
      ∃ Δ, (unifyFields n loc pr fl fr s).2.2.errors = s.errors ++ Δ ∧
        (∀ m, ((⟨loc, .constraint s.path (.fieldOptional m)⟩ : TypeError) ∈ Δ ↔
          ∃ lty rty, (m, false, lty) ∈ fl ∧ lookupF fr m = some (true, rty))) ∧
        (∀ m, ((⟨loc, .constraint s.path (.fieldMissing m)⟩ : TypeError) ∈ Δ ↔
          pr = false ∧ ∃ lty, (m, false, lty) ∈ fl ∧ lookupF fr m = none)) := by
  intro fl
  induction fl with
  | nil =>
    intro fr s hfl hfr
    refine ⟨[], by simp [unifyFields], ?_, ?_⟩ <;> intro m <;> simp
  | cons hd fl ih =>
    obtain ⟨name, lopt, lty⟩ := hd
    intro fr s hfl hfr
    rw [List.map_cons, List.nodup_cons] at hfl
    obtain ⟨hname, hfl'⟩ := hfl
    have hmemName : ∀ (m : String) (o : Bool) (t : RType), (m, o, t) ∈ fl → m ≠ name := by
      intro m o t hmem hc
      apply hname
      rw [← hc]
      exact (show m ∈ fl.map (fun e => e.1) from List.mem_map_of_mem (fun e => e.1) hmem)
    simp only [unifyFields]
    split
    · rename_i hex
      have hlk : lookupF fr name = none := (extractField_eq_none fr name).mp hex
      split
      · rename_i hcond
        obtain ⟨hlopt, hpr⟩ : lopt = false ∧ pr = false := by simpa using hcond
        obtain ⟨Δ2, hE2, hopt2, hmiss2⟩ :=
          ih fr (addProblem loc s (.fieldMissing name)) hfl' hfr
        have hpA : (addProblem loc s (.fieldMissing name)).path = s.path := rfl
        rw [hpA] at hopt2 hmiss2
        have heA : (addProblem loc s (.fieldMissing name)).errors =
            s.errors ++ [(⟨loc, .constraint s.path (.fieldMissing name)⟩ : TypeError)] := rfl
        rw [heA] at hE2
        refine ⟨(⟨loc, .constraint s.path (.fieldMissing name)⟩ : TypeError) :: Δ2, ?_, ?_, ?_⟩
        · rw [hE2, List.append_assoc, List.singleton_append]
        · intro m
          rw [List.mem_cons]
          constructor
          · rintro (heq | hm2)
            · exfalso
              simp at heq
            · obtain ⟨lty2, rty2, hmem2, hlk2⟩ := (hopt2 m).mp hm2
              exact ⟨lty2, rty2, List.mem_cons_of_mem _ hmem2, hlk2⟩
          · rintro ⟨lty2, rty2, hmem, hlk2⟩
            rcases List.mem_cons.mp hmem with heq | hmem2
            · exfalso
              obtain ⟨h1, h2, h3⟩ : m = name ∧ false = lopt ∧ lty2 = lty := by simpa using heq
              rw [h1, hlk] at hlk2
              simp at hlk2
            · exact Or.inr ((hopt2 m).mpr ⟨lty2, rty2, hmem2, hlk2⟩)
        · intro m
          rw [List.mem_cons]
          constructor
          · rintro (heq | hm2)
            · have h1 : m = name := by simpa using heq
              subst h1
              refine ⟨hpr, lty, ?_, hlk⟩
              rw [hlopt]
              exact List.mem_cons_self _ _
            · obtain ⟨hpr2, lty2, hmem2, hlk2⟩ := (hmiss2 m).mp hm2
              exact ⟨hpr2, lty2, List.mem_cons_of_mem _ hmem2, hlk2⟩
          · rintro ⟨hpr2, lty2, hmem, hlk2⟩
            rcases List.mem_cons.mp hmem with heq | hmem2
            · left
              obtain ⟨h1, h2, h3⟩ : m = name ∧ false = lopt ∧ lty2 = lty := by simpa using heq
              rw [h1]
            · exact Or.inr ((hmiss2 m).mpr ⟨hpr2, lty2, hmem2, hlk2⟩)
      · rename_i hcond
        have hIf : (!lopt && !pr) = false := by simpa using hcond
        rcases hu : unifyFields n loc pr fl fr s with ⟨fields2, rem2, s2⟩
        obtain ⟨Δ2, hE2, hopt2, hmiss2⟩ := ih fr s hfl' hfr
        rw [hu] at hE2
        rw [show ((fields2, rem2, s2) :
            List (String × Bool × RType) × List (String × Bool × RType) × UState).2.2
            = s2 from rfl] at hE2
        refine ⟨Δ2, hE2, ?_, ?_⟩
        · intro m
          constructor
          · intro hm
            obtain ⟨lty2, rty2, hmem2, hlk2⟩ := (hopt2 m).mp hm
            exact ⟨lty2, rty2, List.mem_cons_of_mem _ hmem2, hlk2⟩
          · rintro ⟨lty2, rty2, hmem, hlk2⟩
            rcases List.mem_cons.mp hmem with heq | hmem2
            · exfalso
              obtain ⟨h1, h2, h3⟩ : m = name ∧ false = lopt ∧ lty2 = lty := by simpa using heq
              rw [h1, hlk] at hlk2
              simp at hlk2
            · exact (hopt2 m).mpr ⟨lty2, rty2, hmem2, hlk2⟩
        · intro m
          constructor
          · intro hm
            obtain ⟨hpr2, lty2, hmem2, hlk2⟩ := (hmiss2 m).mp hm
            exact ⟨hpr2, lty2, List.mem_cons_of_mem _ hmem2, hlk2⟩
          · rintro ⟨hpr2, lty2, hmem, hlk2⟩
            rcases List.mem_cons.mp hmem with heq | hmem2
            · exfalso
              obtain ⟨h1, h2, h3⟩ : m = name ∧ false = lopt ∧ lty2 = lty := by simpa using heq
              have hcontra : (!lopt && !pr) = true := by
                rw [← h2, hpr2]
                rfl
              rw [hIf] at hcontra
              exact Bool.false_ne_true hcontra
            · exact (hmiss2 m).mpr ⟨hpr2, lty2, hmem2, hlk2⟩
    · rename_i ropt rty frRest hex
      obtain ⟨hlk, hrest⟩ := (extractField_eq_some fr name (ropt, rty) frRest).mp hex
      rcases hrec : recurU n loc (.field name) lty rty
          (if !lopt && ropt then addProblem loc s (.fieldOptional name) else s)
        with ⟨newTy, s2⟩
      rcases hu : unifyFields n loc pr fl frRest s2 with ⟨fields2, rem2, s3⟩
      have hpB : (if !lopt && ropt then addProblem loc s (.fieldOptional name) else s).path
          = s.path := by split <;> rfl
      have hx2 := recurU_ext_of n loc (fun a b st => unify_state_extends n loc a b st)
        (.field name) lty rty
        (if !lopt && ropt then addProblem loc s (.fieldOptional name) else s)
      rw [hrec] at hx2
      obtain ⟨hxp, hxs, Δr, hxe, hxf⟩ := hx2
      have hp2 : s2.path = s.path := hxp.trans hpB
      have hfr2 : (frRest.map (fun e => e.1)).Nodup := by
        rw [hrest]; exact nodup_names_eraseP fr _ hfr
      obtain ⟨Δ2, hE2, hopt2, hmiss2⟩ := ih frRest s2 hfl' hfr2
      rw [hu] at hE2
      rw [show ((fields2, rem2, s3) :
          List (String × Bool × RType) × List (String × Bool × RType) × UState).2.2
          = s3 from rfl] at hE2
      rw [hp2] at hopt2 hmiss2
      have herrB : (if !lopt && ropt then addProblem loc s (.fieldOptional name) else s).errors
          = s.errors ++ (if !lopt && ropt
            then [(⟨loc, .constraint s.path (.fieldOptional name)⟩ : TypeError)] else []) := by
        by_cases hbo : (!lopt && ropt) = true
        · rw [if_pos hbo, if_pos hbo]
          rfl
        · rw [if_neg hbo, if_neg hbo]
          simp
      have hnotr : ∀ prob, (⟨loc, .constraint s.path prob⟩ : TypeError) ∉ Δr := by
        intro prob hmem
        obtain ⟨hl, p, prob2, herr, hlen⟩ := hxf _ hmem
        injection herr with hpp hprob
        rw [← hpp] at hlen
        rw [hpB] at hlen
        omega
      have hoptB : ∀ m, ((⟨loc, .constraint s.path (.fieldOptional m)⟩ : TypeError) ∈
            (if !lopt && ropt
              then [(⟨loc, .constraint s.path (.fieldOptional name)⟩ : TypeError)] else []))
          ↔ (m = name ∧ lopt = false ∧ ropt = true) := by
        intro m
        by_cases hbo : (!lopt && ropt) = true
        · rw [if_pos hbo]
          obtain ⟨hl, hr⟩ : lopt = false ∧ ropt = true := by simpa using hbo
          constructor
          · intro hmem
            have h1 : m = name := by simpa using hmem
            exact ⟨h1, hl, hr⟩
          · rintro ⟨h1, _, _⟩
            subst h1
            simp
        · rw [if_neg hbo]
          constructor
          · intro hmem
            simp at hmem
          · rintro ⟨h1, hl, hr⟩
            exact absurd (by rw [hl, hr]; rfl : (!lopt && ropt) = true) hbo
      have hmissB : ∀ m, (⟨loc, .constraint s.path (.fieldMissing m)⟩ : TypeError) ∉
          (if !lopt && ropt
            then [(⟨loc, .constraint s.path (.fieldOptional name)⟩ : TypeError)] else []) := by
        intro m hmem
        by_cases hbo : (!lopt && ropt) = true
        · rw [if_pos hbo] at hmem
          simp at hmem
        · rw [if_neg hbo] at hmem
          simp at hmem
      refine ⟨(if !lopt && ropt
          then [(⟨loc, .constraint s.path (.fieldOptional name)⟩ : TypeError)] else [])
          ++ Δr ++ Δ2, ?_, ?_, ?_⟩
      · show s3.errors = _
        rw [hE2, hxe, herrB]
        simp [List.append_assoc]
      · intro m
        constructor
        · intro hm
          rcases List.mem_append.mp hm with hm12 | hm3
          · rcases List.mem_append.mp hm12 with hm1 | hm2
            · obtain ⟨h1, hl, hr⟩ := (hoptB m).mp hm1
              subst h1
              refine ⟨lty, rty, ?_, ?_⟩
              · rw [hl]
                exact List.mem_cons_self _ _
              · rw [hlk, hr]
            · exact absurd hm2 (hnotr _)
          · obtain ⟨lty2, rty2, hmem2, hlk2⟩ := (hopt2 m).mp hm3
            have hne : m ≠ name := hmemName m false lty2 hmem2
            refine ⟨lty2, rty2, List.mem_cons_of_mem _ hmem2, ?_⟩
            rw [← lookupF_eraseP_ne fr name m hne, ← hrest]
            exact hlk2
        · rintro ⟨lty2, rty2, hmem, hlk2⟩
          rcases List.mem_cons.mp hmem with heq | hmem2
          · obtain ⟨h1, h2, h3⟩ : m = name ∧ false = lopt ∧ lty2 = lty := by simpa using heq
            subst h1
            rw [hlk] at hlk2
            obtain ⟨h4, h5⟩ : ropt = true ∧ rty = rty2 := by simpa using hlk2
            apply List.mem_append_left
            apply List.mem_append_left
            exact (hoptB m).mpr ⟨rfl, h2.symm, h4⟩
          · apply List.mem_append_right
            apply (hopt2 m).mpr
            have hne : m ≠ name := hmemName m false lty2 hmem2
            refine ⟨lty2, rty2, hmem2, ?_⟩
            rw [hrest, lookupF_eraseP_ne fr name m hne]
            exact hlk2
      · intro m
        constructor
        · intro hm
          rcases List.mem_append.mp hm with hm12 | hm3
          · rcases List.mem_append.mp hm12 with hm1 | hm2
            · exact absurd hm1 (hmissB m)
            · exact absurd hm2 (hnotr _)
          · obtain ⟨hpr2, lty2, hmem2, hlk2⟩ := (hmiss2 m).mp hm3
            have hne : m ≠ name := hmemName m false lty2 hmem2
            refine ⟨hpr2, lty2, List.mem_cons_of_mem _ hmem2, ?_⟩
            rw [← lookupF_eraseP_ne fr name m hne, ← hrest]
            exact hlk2
        · rintro ⟨hpr2, lty2, hmem, hlk2⟩
          rcases List.mem_cons.mp hmem with heq | hmem2
          · exfalso
            obtain ⟨h1, h2, h3⟩ : m = name ∧ false = lopt ∧ lty2 = lty := by simpa using heq
            rw [h1, hlk] at hlk2
            simp at hlk2
          · apply List.mem_append_right
            apply (hmiss2 m).mpr
            have hne : m ≠ name := hmemName m false lty2 hmem2
            refine ⟨hpr2, lty2, hmem2, ?_⟩
            rw [hrest, lookupF_eraseP_ne fr name m hne]
            exact hlk2


/-- C4: when the unifier processes a constraint whose two (substituted)
sides are record types, the result is a field-wise merge: fields on both
sides are unified recursively under a `Field` path entry (reporting
`FieldOptional` exactly when the left field is required and the right
optional); a left-only field is reported as `FieldMissing` exactly when it
is required and the right record is not partial, and is kept (substituted)
otherwise; right-only fields are kept exactly when the left record is
partial; the merged partial flag is the left one; and the merged type is
rebound into a type variable naming either side of the constraint. -/
theorem unify_record_merge_fields_and_rebind
    (fuel : Nat) (loc : NodeData) (left right : RType) (s : UState)
    (pl : Bool) (fl : List (String × Bool × RType))
    (pr : Bool) (fr : List (String × Bool × RType))
    (hL : applySubst s.subst left = .record pl fl)
    (hR : applySubst s.subst right = .record pr fr)
    (hne : RType.beq (.record pl fl) (.record pr fr) = false)
    (hfl : (fl.map (fun e => e.1)).Nodup) (hfr : (fr.map (fun e => e.1)).Nodup) :
    ∃ (fields rem : List (String × Bool × RType)) (s1 : UState) (Δ : List TypeError),
      (unify (fuel + 1) loc left right s).1
          = .record pl (if pl then fields ++ applySubstFields s1.subst rem else fields) ∧
      (unify (fuel + 1) loc left right s).2
          = (rebindU loc left right
              (.record pl (if pl then fields ++ applySubstFields s1.subst rem else fields))
              s1).2 ∧
      s1.errors = s.errors ++ Δ ∧
      s1.path = s.path ∧
      (∀ m, ((⟨loc, .constraint s.path (.fieldOptional m)⟩ : TypeError) ∈ Δ ↔
        ∃ lty rty, (m, false, lty) ∈ fl ∧ lookupF fr m = some (true, rty))) ∧
      (∀ m, ((⟨loc, .constraint s.path (.fieldMissing m)⟩ : TypeError) ∈ Δ ↔
        pr = false ∧ ∃ lty, (m, false, lty) ∈ fl ∧ lookupF fr m = none)) ∧
      (fields.map (fun e => (e.1, e.2.1)) =
        fl.filterMap (fun e => if (lookupF fr e.1).isNone && !e.2.1 && !pr then none
          else some (e.1, e.2.1))) ∧
      (∀ m lopt lty, (m, lopt, lty) ∈ fl → ∀ ropt rty, lookupF fr m = some (ropt, rty) →
        ∃ sj : UState, sj.path = s.path ∧
          (m, lopt, (unify fuel loc lty rty { sj with path := s.path ++ [.field m] }).1)
            ∈ fields) ∧
      (∀ m lopt lty, (m, lopt, lty) ∈ fl → lookupF fr m = none → (lopt = true ∨ pr = true) →
        ∃ sj : UState, sj.path = s.path ∧ (m, lopt, applySubst sj.subst lty) ∈ fields) ∧
      (∀ m, lookupF rem m =
        if (fl.map (fun e => e.1)).contains m then none else lookupF fr m) ∧
      (∀ v, (left = .var v ∨ right = .var v) →
        containsVar
          (.record pl (if pl then fields ++ applySubstFields s1.subst rem else fields)) v
          = false →
        (substGet s1.subst v).isSome →
        substGet (unify (fuel + 1) loc left right s).2.subst v
          = some (.record pl
              (if pl then fields ++ applySubstFields s1.subst rem else fields))) := by
  simp only [unify, hL, hR]
  rw [if_neg (by simp [hne])]
  rcases hUF : unifyFields fuel loc pr fl fr s with ⟨fields, rem, s1⟩
  have hxF := unifyFields_ext_of fuel loc (fun a b st => unify_state_extends fuel loc a b st)
    fl fr pr s
  rw [hUF] at hxF
  have hrem := unifyFields_rem fuel loc pr fl fr s hfl hfr
  rw [hUF] at hrem
  obtain ⟨hskel, hmat, hkept⟩ := unifyFields_fields fuel loc pr fl fr s hfl hfr
  rw [hUF] at hskel hmat hkept
  obtain ⟨Δ, hE, hoptIff, hmissIff⟩ := unifyFields_errors fuel loc pr fl fr s hfl hfr
  rw [hUF] at hE
  rw [show ((fields, rem, s1) :
      List (String × Bool × RType) × List (String × Bool × RType) × UState).1
      = fields from rfl] at hskel hmat hkept
  rw [show ((fields, rem, s1) :
      List (String × Bool × RType) × List (String × Bool × RType) × UState).2.1
      = rem from rfl] at hrem
  rw [show ((fields, rem, s1) :
      List (String × Bool × RType) × List (String × Bool × RType) × UState).2.2
      = s1 from rfl] at hE hxF
  refine ⟨fields, rem, s1, Δ, rfl, rfl, hE, hxF.1, hoptIff, hmissIff, hskel, hmat, hkept,
    hrem, ?_⟩
  intro v hv hcv hsv
  show substGet (rebindU loc left right _ s1).2.subst v = _
  simp only [rebindU]
  by_cases hrv : right = RType.var v
  · rw [hrv]
    exact rebindSide_var_binds loc v _ _ hcv
      ((rebindSide_ext loc left _ s1).2.1 v hsv)
  · rcases hv with hlv | hrv2
    · rw [rebindSide_subst_preserve loc right _ _ v
        (fun w hw hwv => hrv (by rw [hw, hwv]))]
      rw [hlv]
      exact rebindSide_var_binds loc v _ s1 hcv hsv
    · exact absurd hrv2 hrv

/-- Witness for C4 at a concrete constraint: unifying the record type
with one required field `a: Num` against the empty non-partial record in
the empty state. -/
theorem unify_record_merge_witness :
    ∃ (fields rem : List (String × Bool × RType)) (s1 : UState) (Δ : List TypeError),
      (unify 1 ⟨.apply, 0, 0⟩ (.record false [("a", false, .num)]) (.record false [])
          ⟨[], [], []⟩).1
          = .record false (if false then fields ++ applySubstFields s1.subst rem
              else fields) ∧
      (unify 1 ⟨.apply, 0, 0⟩ (.record false [("a", false, .num)]) (.record false [])
          ⟨[], [], []⟩).2
          = (rebindU ⟨.apply, 0, 0⟩ (.record false [("a", false, .num)]) (.record false [])
              (.record false (if false then fields ++ applySubstFields s1.subst rem
                else fields)) s1).2 ∧
      s1.errors = [] ++ Δ ∧
      s1.path = [] ∧
      (∀ m, ((⟨⟨.apply, 0, 0⟩, .constraint [] (.fieldOptional m)⟩ : TypeError) ∈ Δ ↔
        ∃ lty rty, (m, false, lty) ∈ [("a", false, RType.num)] ∧
          lookupF [] m = some (true, rty))) ∧
      (∀ m, ((⟨⟨.apply, 0, 0⟩, .constraint [] (.fieldMissing m)⟩ : TypeError) ∈ Δ ↔
        false = false ∧ ∃ lty, (m, false, lty) ∈ [("a", false, RType.num)] ∧
          lookupF [] m = none)) ∧
      (fields.map (fun e => (e.1, e.2.1)) =
        [("a", false, RType.num)].filterMap (fun e =>
          if (lookupF [] e.1).isNone && !e.2.1 && !false then none
          else some (e.1, e.2.1))) ∧
      (∀ m lopt lty, (m, lopt, lty) ∈ [("a", false, RType.num)] →
        ∀ ropt rty, lookupF [] m = some (ropt, rty) →
        ∃ sj : UState, sj.path = [] ∧
          (m, lopt, (unify 0 ⟨.apply, 0, 0⟩ lty rty
            { sj with path := [] ++ [.field m] }).1) ∈ fields) ∧
      (∀ m lopt lty, (m, lopt, lty) ∈ [("a", false, RType.num)] → lookupF [] m = none →
        (lopt = true ∨ false = true) →
        ∃ sj : UState, sj.path = [] ∧ (m, lopt, applySubst sj.subst lty) ∈ fields) ∧
      (∀ m, lookupF rem m =
        if ([("a", false, RType.num)].map (fun e => e.1)).contains m then none
        else lookupF [] m) ∧
      (∀ v, ((.record false [("a", false, RType.num)] : RType) = .var v ∨
          (.record false [] : RType) = .var v) →
        containsVar
          (.record false (if false then fields ++ applySubstFields s1.subst rem else fields))
          v = false →
        (substGet s1.subst v).isSome →
        substGet (unify 1 ⟨.apply, 0, 0⟩ (.record false [("a", false, .num)])
            (.record false []) ⟨[], [], []⟩).2.subst v
          = some (.record false
              (if false then fields ++ applySubstFields s1.subst rem else fields))) :=
  unify_record_merge_fields_and_rebind 0 ⟨.apply, 0, 0⟩
    (.record false [("a", false, .num)]) (.record false []) ⟨[], [], []⟩
    false [("a", false, .num)] false []
    (by simp [applySubst, applySubstFields])
    (by simp [applySubst, applySubstFields])
    (by simp [RType.beq])
    (by simp)
    (by simp)


/-- `Argument` from `signature.rs` (the fields the rewrite pass reads). -/
structure SigArg where
  name : ArenaId
  ty : RType
  variadic : Bool
  required : Bool

/-- `Signature` from `signature.rs`. -/
structure Signature where
  args : List SigArg
  returnType : RType
  total : Bool

/-- `Signature::arg`: the first argument spec with the given symbol id. -/
def Signature.arg (sig : Signature) (name : ArenaId) : Option SigArg :=
  sig.args.find? (fun spec => spec.name == name)

/-- `Type::Block(_, _)` pattern of the rewrite pass. -/
def RType.isBlock : RType → Bool
  | .block _ _ => true
  | _ => false

/-- `SyntaxTree::node_str`: the source slice `input[start_pos..end_pos]`. -/
def nodeStr (input : List Char) (d : NodeData) : List Char :=
  (input.drop d.startPos).take (d.endPos - d.startPos)

/-- `str::trim_right_matches(':')`. -/
def trimColons (s : List Char) : List Char :=
  (s.reverse.dropWhile (fun c => c == ':')).reverse

/-- `INamespace::get_signature`, keyed by the function name text. -/
abbrev SigNamespace := List Char → Option Signature

mutual

/-- `rewrite` from `frontend/implicit_blocks.rs`, presented structurally:
the pass collects its wrap/unwrap decisions from the unmodified tree and
each decision only inserts a parent above, or replaces by the first child
of, one argument value node, so the flat collect-then-mutate loop equals
this recursive rewrite; `none` models `NodeIdError` and the panicking
child indexing. -/
def rewriteNode (input : List Char) (ns : SigNamespace) : STree → Option STree
  | .node d cs =>
    if d.nodeType = .apply then
      match cs with
      | [] => none
      | arg0 :: rest =>
        match arg0.children with
        | [] => none
        | kw0 :: _ =>
          match ns (trimColons (nodeStr input kw0.nodeData)) with
          | none =>
            (rewriteSeq input ns (arg0 :: rest)).map (fun cs2 => STree.node d cs2)
          | some sig =>
            (rewriteArgs input ns sig (arg0 :: rest)).map (fun cs2 => STree.node d cs2)
    else
      (rewriteSeq input ns cs).map (fun cs2 => STree.node d cs2)
termination_by t => sizeOf t
decreasing_by
  all_goals simp_wf
  all_goals omega

/-- The recursion into child nodes (the pre-order traversal restricted to
a subtree). -/
def rewriteSeq (input : List Char) (ns : SigNamespace) : List STree → Option (List STree)
  | [] => some []
  | c :: rest =>
    match rewriteNode input ns c with
    | none => none
    | some c2 =>
      match rewriteSeq input ns rest with
      | none => none
      | some rest2 => some (c2 :: rest2)
termination_by ts => sizeOf ts
decreasing_by
  all_goals simp_wf
  all_goals omega

/-- The `for arg_node_id in children` loop of an `Apply` with a signature. -/
def rewriteArgs (input : List Char) (ns : SigNamespace) (sig : Signature) :
    List STree → Option (List STree)
  | [] => some []
  | a :: rest =>
    match rewriteArg input ns sig a with
    | none => none
    | some a2 =>
      match rewriteArgs input ns sig rest with
      | none => none
      | some rest2 => some (a2 :: rest2)
termination_by ts => sizeOf ts
decreasing_by
  all_goals simp_wf
  all_goals omega

/-- The body of the argument loop: the wrap/unwrap decision for one
argument node (`arg_children[0]` is the keyword, `arg_children[1]` the
value). -/
def rewriteArg (input : List Char) (ns : SigNamespace) (sig : Signature) :
    STree → Option STree
  | .node ad acs =>
    match acs with
    | [] => none
    | kw :: acsRest =>
      match nodeSymbolId kw with
      | none => none
      | some kwId =>
        match Signature.arg sig kwId with
        | none => (rewriteSeq input ns (kw :: acsRest)).map (fun cs2 => STree.node ad cs2)
        | some spec =>
          match acsRest with
          | [] => none
          | val :: restc =>
            if spec.ty.isBlock then
              if val.nodeType = .block then
                (rewriteSeq input ns (kw :: val :: restc)).map (fun cs2 => STree.node ad cs2)
              else
                match rewriteNode input ns kw, rewriteNode input ns val,
                    rewriteSeq input ns restc with
                | some kw2, some val2, some r2 =>
                  some (.node ad (kw2 ::
                    .node ⟨.block, val.nodeData.startPos, val.nodeData.endPos⟩ [val2] :: r2))
                | _, _, _ => none
            else
              match val with
              | .node vd [body] =>
                if vd.nodeType = .block then
                  match rewriteNode input ns kw, rewriteNode input ns body,
                      rewriteSeq input ns restc with
                  | some kw2, some body2, some r2 => some (.node ad (kw2 :: body2 :: r2))
                  | _, _, _ => none
                else
                  (rewriteSeq input ns (kw :: STree.node vd [body] :: restc)).map
                    (fun cs2 => STree.node ad cs2)
              | other =>
                (rewriteSeq input ns (kw :: other :: restc)).map
                  (fun cs2 => STree.node ad cs2)
termination_by t => sizeOf t
decreasing_by
  all_goals simp_wf
  all_goals omega

end


/-- C3: for an `Apply` argument whose keyword has an argument spec in the
function signature, the implicit-block pass wraps the value in a synthetic
zero-argument `Block` node over the value's own source span exactly when
the declared type is a block and the value is not a `Block` node; replaces
a `Block` value by its body exactly when the declared type is not a block
and the block has zero arguments (a single child); leaves the argument
alone when a block with arguments is supplied where a value is expected;
and an `Apply` whose function name has no signature only recurses into its
children. -/
theorem implicit_block_rewrite_cases (input : List Char) (ns : SigNamespace)
    (sig : Signature) (ad : NodeData) (kw val : STree) (restc : List STree)
    (kwId : ArenaId) (spec : SigArg)
    (hkw : nodeSymbolId kw = some kwId)
    (hspec : Signature.arg sig kwId = some spec) :
    (spec.ty.isBlock = true → val.nodeType ≠ .block →
      rewriteArg input ns sig (.node ad (kw :: val :: restc)) =
        match rewriteNode input ns kw, rewriteNode input ns val,
            rewriteSeq input ns restc with
        | some kw2, some val2, some r2 =>
          some (.node ad (kw2 ::
            .node ⟨.block, val.nodeData.startPos, val.nodeData.endPos⟩ [val2] :: r2))
        | _, _, _ => none) ∧
    (spec.ty.isBlock = true → val.nodeType = .block →
      rewriteArg input ns sig (.node ad (kw :: val :: restc)) =
        (rewriteSeq input ns (kw :: val :: restc)).map (fun cs2 => STree.node ad cs2)) ∧
    (spec.ty.isBlock = false → ∀ bd body, val = .node bd [body] → bd.nodeType = .block →
      rewriteArg input ns sig (.node ad (kw :: val :: restc)) =
        match rewriteNode input ns kw, rewriteNode input ns body,
            rewriteSeq input ns restc with
        | some kw2, some body2, some r2 => some (.node ad (kw2 :: body2 :: r2))
        | _, _, _ => none) ∧
    (spec.ty.isBlock = false → val.nodeType = .block → val.children.length ≠ 1 →
      rewriteArg input ns sig (.node ad (kw :: val :: restc)) =
        (rewriteSeq input ns (kw :: val :: restc)).map (fun cs2 => STree.node ad cs2)) ∧
    (spec.ty.isBlock = false → val.nodeType ≠ .block →
      rewriteArg input ns sig (.node ad (kw :: val :: restc)) =
        (rewriteSeq input ns (kw :: val :: restc)).map (fun cs2 => STree.node ad cs2)) ∧
    (∀ (d : NodeData) (arg0 : STree) (r : List STree) (kw0 : STree) (r2 : List STree),
      d.nodeType = .apply → arg0.children = kw0 :: r2 →
      ns (trimColons (nodeStr input kw0.nodeData)) = none →
      rewriteNode input ns (.node d (arg0 :: r)) =
        (rewriteSeq input ns (arg0 :: r)).map (fun cs2 => STree.node d cs2)) ∧
    (∀ (d : NodeData) (arg0 : STree) (r : List STree) (kw0 : STree) (r2 : List STree)
      (sig2 : Signature),
      d.nodeType = .apply → arg0.children = kw0 :: r2 →
      ns (trimColons (nodeStr input kw0.nodeData)) = some sig2 →
      rewriteNode input ns (.node d (arg0 :: r)) =
        (rewriteArgs input ns sig2 (arg0 :: r)).map (fun cs2 => STree.node d cs2)) := by
  refine ⟨?_, ?_, ?_, ?_, ?_, ?_, ?_⟩
  · intro hb hv
    simp only [rewriteArg, hkw, hspec]
    rw [if_pos hb, if_neg hv]
  · intro hb hv
    simp only [rewriteArg, hkw, hspec]
    rw [if_pos hb, if_pos hv]
  · intro hb bd body hval hbd
    subst hval
    simp only [rewriteArg, hkw, hspec]
    rw [if_neg (by simp [hb])]
    rw [if_pos (show bd.nodeType = .block from hbd)]
  · intro hb hv hlen
    simp only [rewriteArg, hkw, hspec]
    rw [if_neg (by simp [hb])]
    cases val with
    | node vd vcs =>
      simp only [STree.children] at hlen
      match vcs, hlen with
      | [], _ => rfl
      | [b], hlen => simp at hlen
      | b :: b2 :: bs, _ => rfl
  · intro hb hv
    simp only [rewriteArg, hkw, hspec]
    rw [if_neg (by simp [hb])]
    cases val with
    | node vd vcs =>
      have hvd : ¬ vd.nodeType = .block := hv
      match vcs with
      | [] => rfl
      | [b] =>
        split
        · rename_i vd2 body2 heq
          injection heq with h1 h2
          subst h1
          injection h2 with h3 h4
          subst h3
          rw [if_neg hvd]
        · rename_i hno
          exact absurd rfl (hno vd b)
      | b :: b2 :: bs => rfl
  · intro d arg0 r kw0 r2 hd harg hns
    simp only [rewriteNode]
    rw [if_pos hd]
    simp only [harg, hns]
  · intro d arg0 r kw0 r2 sig2 hd harg hns
    simp only [rewriteNode]
    rw [if_pos hd]
    simp only [harg, hns]

/-- Witness for C3: an argument whose keyword (symbol 3) has a spec
declaring a block type receives a literal value; the pass wraps the value
node (span 4..5) in a synthetic zero-argument block node with the same
span. -/
theorem implicit_block_rewrite_witness :
    rewriteArg [] (fun _ => none) ⟨[⟨3, .block [] .num, false, true⟩], .num, true⟩
        (.node ⟨.argument, 0, 5⟩
          [.node ⟨.keyword 3, 0, 2⟩ [], .node ⟨.primitive 0, 4, 5⟩ []]) =
      some (.node ⟨.argument, 0, 5⟩ [.node ⟨.keyword 3, 0, 2⟩ [],
        .node ⟨.block, 4, 5⟩ [.node ⟨.primitive 0, 4, 5⟩ []]]) := by
  have h := (implicit_block_rewrite_cases [] (fun _ => none)
    ⟨[⟨3, .block [] .num, false, true⟩], .num, true⟩ ⟨.argument, 0, 5⟩
    (.node ⟨.keyword 3, 0, 2⟩ []) (.node ⟨.primitive 0, 4, 5⟩ []) [] 3
    ⟨3, .block [] .num, false, true⟩ rfl rfl).1 rfl (by decide)
  rw [h]
  simp [rewriteNode, rewriteSeq, STree.nodeData]


/-- A digit or an `_` separator. -/
def isDigitU (c : Char) : Bool := c.isDigit || c == '_'

/-- A nonempty digit run that may contain `_` separators after the first
digit. -/
def digits1U : List Char → Bool
  | [] => false
  | c :: rest => c.isDigit && rest.all isDigitU

/-- Modelled from the spec: the grammar's `number` rule — an integer or
decimal with optional `_` separators and an optional scientific exponent
(`grammar.pest` itself is not under `src/`; the repository's
`test_parse_numbers` fixes the accepted forms `1`, `1000`, `1.5`,
`1.6e10`, `1.6e-10` and `100_000`). -/
def numberRule (s : List Char) : Bool :=
  let mant := s.takeWhile (fun c => isDigitU c || c == '.')
  let rest := s.drop mant.length
  let intPart := mant.takeWhile isDigitU
  let fracR := mant.drop intPart.length
  (match fracR with
   | [] => digits1U intPart
   | c :: frac => c == '.' && digits1U intPart && digits1U frac) &&
  (match rest with
   | [] => true
   | c :: er =>
     (c == 'e' || c == 'E') &&
     (match er with
      | [] => false
      | c2 :: er2 => if c2 == '+' || c2 == '-' then digits1U er2 else digits1U er))

/-- A nonempty run of plain digits. -/
def digits1 (l : List Char) : Bool := !l.isEmpty && l.all Char.isDigit

/-- Modelled from the spec: the syntax accepted by the Rust standard
library's `impl FromStr for f64`, which `consume_pair` calls through
`str::parse::<f64>` — an optional sign, then `inf`/`infinity`/`nan`
(case-insensitive) or a decimal mantissa of plain digits with an optional
scientific exponent; underscore separators are not accepted by `FromStr`. -/
def rustF64Accepts (s : List Char) : Bool :=
  let body := match s with
    | c :: rest => if c == '+' || c == '-' then rest else s
    | [] => s
  let lower := body.map Char.toLower
  if lower == ['i', 'n', 'f'] || lower == ['i', 'n', 'f', 'i', 'n', 'i', 't', 'y'] ||
      lower == ['n', 'a', 'n'] then true
  else
    let mant := body.takeWhile (fun c => c.isDigit || c == '.')
    let rest := body.drop mant.length
    let intPart := mant.takeWhile Char.isDigit
    let fracR := mant.drop intPart.length
    (!body.isEmpty) &&
    (match fracR with
     | [] => digits1 intPart
     | c :: frac => c == '.' && (digits1 intPart || digits1 frac) &&
         frac.all Char.isDigit) &&
    (match rest with
     | [] => true
     | c :: er =>
       (c == 'e' || c == 'E') &&
       (match er with
        | [] => false
        | c2 :: er2 => if c2 == '+' || c2 == '-' then digits1 er2 else digits1 er))

/-- `SyntaxTree::consume_pair`, `Rule::number` case
(`frontend/syntax_tree.rs:153-156`): the matched text is fed to
`str::parse::<f64>()` and the result is `unwrap`ped; `none` models the
panic when `FromStr` rejects the text (the converted float value itself
is not modelled). -/
def consumePairNumber (s : List Char) : Option Unit :=
  if rustF64Accepts s then some () else none

/-- C9: the grammar's `number` rule accepts `100_000` (the repository's
own `test_parse_numbers` asserts this), but building the syntax tree for
it panics: `consume_pair` unwraps `"100_000".parse::<f64>()`, and the
standard library float parser rejects underscore separators. This refutes
the claim that every grammar-accepted number literal converts to an `f64`
constant without failing. -/
theorem number_rule_underscore_panics :
    numberRule ['1', '0', '0', '_', '0', '0', '0'] = true ∧
    consumePairNumber ['1', '0', '0', '_', '0', '0', '0'] = none :=
  ⟨by decide, by decide⟩


/-- `Prim::type_of` from `primitive.rs`. -/
def primTypeOf : Prim → RType
  | .number _ => .num
  | .string _ => .str
  | .boolean _ => .bool
  | .time _ => .time
  | .money _ _ => .money

/-- `Scheme` from `typing/type_env.rs` (the `vars` set is only ever
written empty by `Scheme::new`; `generalize` is dead code). -/
structure Scheme where
  vars : List String
  ty : RType

/-- One frame of the `Scope<Scheme>` chain. -/
abbrev TypeFrame := List (String × Scheme)

/-- `Constraint` from `typing/constraint_generator.rs`. -/
structure Constraint where
  left : RType
  right : RType
  loc : NodeData

/-- The mutable state of `ConstraintGenerator` plus the parts of the
`TypeEnv` that outlive child scopes: the `Rc`-shared root frame and the
`undefined` name set. -/
structure GenState where
  fresh : Nat
  constraints : List Constraint
  errors : List TypeError
  rootFrame : TypeFrame
  undefined : List String

/-- `FreshVarSupply::next`: bump the counter and yield `Var("$count")`. -/
def freshNext (g : GenState) : RType × GenState :=
  let c := g.fresh + 1
  (.var ("$" ++ toString c), { g with fresh := c })

/-- `Scheme::instantiate`: fresh variables for every scheme variable. -/
def instantiate (sch : Scheme) (g : GenState) : RType × GenState :=
  let (subs, g2) := sch.vars.foldl
    (fun (acc : Subst × GenState) v =>
      let (t, g3) := freshNext acc.2
      (acc.1 ++ [(v, t)], g3))
    ([], g)
  (applySubst subs sch.ty, g2)

/-- `Scope::get` through the local frames, ending at the root frame. -/
def envGet (locals : List TypeFrame) (g : GenState) (name : String) : Option Scheme :=
  match locals with
  | [] => lookupStr g.rootFrame name
  | f :: rest =>
    match lookupStr f name with
    | some s => some s
    | none => envGet rest g name

/-- `TypeEnv::get_or_let_fresh`: a missing name is added to the
`undefined` set and bound at the root to a fresh variable. -/
def getOrLetFresh (locals : List TypeFrame) (name : String) (g : GenState) :
    Scheme × GenState :=
  match envGet locals g name with
  | some sch => (sch, g)
  | none =>
    let g1 := if g.undefined.contains name then g
      else { g with undefined := g.undefined ++ [name] }
    let (t, g2) := freshNext g1
    let sch : Scheme := ⟨[], t⟩
    (sch, { g2 with rootFrame := insertStr g2.rootFrame name sch })

/-- `ConstraintGenerator::add_constraint`. -/
def addConstraint (loc : NodeData) (l r : RType) (g : GenState) : GenState :=
  { g with constraints := g.constraints ++ [⟨l, r, loc⟩] }

/-- The number of free variables of a type (`free_vars` is a set, so
duplicates are already collapsed). -/
def fvCount (t : RType) : Nat :=
  match freeVars t with
  | some vs => vs.length
  | none => 0

/-- `ConstraintGenerator::recur`, with fuel standing in for the recursion
the Rust borrow checker permits; the fuel-exhausted base (and the child
indexing that panics in the source on malformed trees) returns `Never`
without touching the state, and is never reached in the theorems. The
generator's `inside_try` flag is initialized `false` and never written, so
it appears here as the literal `false`. -/
def genNode (ns : SigNamespace) (input : List Char) (constants : List Prim) :
    Nat → STree → List TypeFrame → GenState → (RType × GenState)
  | 0, _, _, g => (.never, g)
  | fuel + 1, .node d cs, locals, g =>
    match d.nodeType with
    | .root =>
      cs.foldl (fun (acc : RType × GenState) c =>
        genNode ns input constants fuel c locals acc.2) (.any, g)
    | .primitive id =>
      match constants[id]? with
      | some p => (primTypeOf p, g)
      | none => (.never, g)
    | .list =>
      let (elemVar, g1) := freshNext g
      let g2 := cs.foldl (fun gAcc c =>
        let (elemTy, g3) := genNode ns input constants fuel c locals gAcc
        addConstraint c.nodeData elemVar elemTy g3) g1
      (.list elemVar, g2)
    | .record =>
      let (fields, g1) := cs.foldl
        (fun (acc : List (String × Bool × RType) × GenState) entry =>
          match entry.children with
          | nameN :: valueN :: _ =>
            let (fty, g2) := genNode ns input constants fuel valueN locals acc.2
            (insertStr acc.1 (String.mk (nodeStr input nameN.nodeData)) (false, fty), g2)
          | _ => acc)
        ([], g)
      (.record false fields, g1)
    | .varNode =>
      match cs with
      | [] => (.never, g)
      | rootIdent :: restPath =>
        let rootName := String.mk (nodeStr input rootIdent.nodeData)
        let (sch, g1) := getOrLetFresh locals rootName g
        let (rootTy, g2) := instantiate sch g1
        match restPath with
        | [] => (rootTy, g2)
        | _ :: _ =>
          let (leafTy, g3) := freshNext g2
          let (rootVar, g4) := restPath.reverse.foldl
            (fun (acc : RType × GenState) childN =>
              let (nextVar, g5) := freshNext acc.2
              let segText := String.mk (nodeStr input childN.nodeData)
              let recordTy := RType.record true [(segText, false, acc.1)]
              let subpathData : NodeData :=
                ⟨.varNode, d.startPos, childN.nodeData.endPos⟩
              (nextVar, addConstraint subpathData nextVar recordTy g5))
            (leafTy, g3)
          (leafTy, addConstraint d rootTy rootVar g4)
    | .block =>
      if cs.length > 1 then
        match cs with
        | c0 :: body :: _ =>
          let (frame, inTypes, g1) := c0.children.foldl
            (fun (acc : TypeFrame × List RType × GenState) argN =>
              let (t, g2) := freshNext acc.2.2
              (insertStr acc.1 (String.mk (nodeStr input argN.nodeData)) (⟨[], t⟩ : Scheme),
               acc.2.1 ++ [t], g2))
            ([], [], g)
          let (outTy, g2) := genNode ns input constants fuel body (frame :: locals) g1
          (.block inTypes outTy, g2)
        | _ => (.never, g)
      else
        match cs with
        | c0 :: _ =>
          let (outTy, g1) := genNode ns input constants fuel c0 locals g
          (.block [] outTy, g1)
        | [] => (.never, g)
    | .apply =>
      match cs with
      | [] => (.never, g)
      | arg0 :: _ =>
        match arg0.children with
        | [] => (.never, g)
        | kw0 :: _ =>
          let funcName := trimColons (nodeStr input kw0.nodeData)
          match ns funcName with
          | none =>
            (.any, { g with errors := g.errors ++ [⟨arg0.nodeData, .unknownFunction⟩] })
          | some sig =>
            let sigVars := sig.args.foldl (fun acc a => extendVars acc (freeVars a.ty)) none
            let (sigSubst, g1) : Option Subst × GenState :=
              match sigVars with
              | none => (none, g)
              | some vars =>
                let (subs, g2) := vars.foldl
                  (fun (acc : Subst × GenState) v =>
                    let (t, g3) := freshNext acc.2
                    (acc.1 ++ [(v, t)], g3))
                  ([], g)
                (some subs, g2)
            let g2 := cs.foldl (fun gAcc argN =>
              match argN.children with
              | kwN :: valN :: _ =>
                let kwSymId := match kwN.nodeData.nodeType with
                  | .keyword kid => some kid
                  | _ => none
                let (argTy, g3) :=
                  match kwSymId.bind (fun kid => Signature.arg sig kid) with
                  | some spec => (spec.ty, gAcc)
                  | none =>
                    ((.any : RType), { gAcc with errors := gAcc.errors ++
                      [(⟨kwN.nodeData, .unknownKeyword (String.mk funcName)⟩ : TypeError)] })
                let argType := match sigSubst with
                  | some s => applySubst s argTy
                  | none => argTy
                let (stxTy, g4) := genNode ns input constants fuel valN locals g3
                addConstraint valN.nodeData stxTy argType g4
              | _ => gAcc) g1
            let (out, g3) := freshNext g2
            let returnType := match sigSubst with
              | some s => applySubst s sig.returnType
              | none => sig.returnType
            (out, addConstraint d out returnType g3)
    | _ => (.never, g)

/-- The insertion step of a stable ascending sort (earlier entries stay
before later entries with an equal key). -/
def sortInsert (x : Constraint) : List Constraint → List Constraint
  | [] => [x]
  | y :: ys =>
    if fvCount y.left + fvCount y.right < fvCount x.left + fvCount x.right
    then y :: sortInsert x ys
    else x :: y :: ys

/-- `ConstraintGenerator::sort_constraints`: a stable sort by the summed
free-variable counts of the two constraint sides. -/
def sortConstraints (cs : List Constraint) : List Constraint :=
  cs.foldr sortInsert []

mutual

/-- `finalize_record` inside `minimize_substitution`: a partial record
becomes non-partial (recursively through its fields and list elements);
non-partial records are returned as-is. -/
def finalizeRecord : RType → RType
  | .record true fields => .record false (finalizeFields fields)
  | .list elem => .list (finalizeRecord elem)
  | other => other

/-- `finalize_record` mapped over a field map. -/
def finalizeFields : List (String × Bool × RType) → List (String × Bool × RType)
  | [] => []
  | (n, o, t) :: fs => (n, o, finalizeRecord t) :: finalizeFields fs

end

/-- The inner idempotence loop of `minimize_substitution` (fueled). -/
def applyFixLoop : Nat → Subst → RType → RType
  | 0, _, t => t
  | f + 1, sub, t =>
    let t2 := applySubst sub t
    if RType.beq t t2 then t else applyFixLoop f sub t2

/-- One pass of the `minimize_substitution` outer loop: `none` models the
`Err` (infinite type) return; otherwise the rebuilt substitution and the
progress count. -/
def minimizeStep (fuel : Nat) (sub : Subst) : Option (Subst × Nat) :=
  sub.foldl
    (fun acc entry =>
      match acc with
      | none => none
      | some (next, progress) =>
        match entry.2 with
        | .var other =>
          match substGet sub other with
          | some otherTy =>
            if containsVar otherTy entry.1 then none
            else some (insertStr next entry.1
              (finalizeRecord (applySubst sub otherTy)), progress + 1)
          | none =>
            some (insertStr next entry.1
              (finalizeRecord (applyFixLoop fuel sub (applySubst sub entry.2))), progress)
        | _ =>
          some (insertStr next entry.1
            (finalizeRecord (applyFixLoop fuel sub (applySubst sub entry.2))), progress))
    (some ([], 0))

/-- `minimize_substitution` (fueled): repeat until a pass makes no
progress; the result is that final pass's rebuilt substitution. -/
def minimizeLoop : Nat → Subst → Option Subst
  | 0, _ => none
  | f + 1, sub =>
    match minimizeStep (f + 1) sub with
    | none => none
    | some (next, progress) =>
      if progress == 0 then some next else minimizeLoop f next

/-- `solve` from `typing/constraint_solver.rs`: unify every constraint in
order against one shared substitution, error sink and location path, then
minimize; an empty constraint list returns the empty substitution
directly. `none` models the `unwrap` panic on `minimize_substitution`'s
`Err`. -/
def solveAndMinimize (fuel : Nat) (cs : List Constraint) (errors0 : List TypeError) :
    Option (Subst × List TypeError) :=
  if cs.length == 0 then some ([], errors0)
  else
    let st := cs.foldl (fun (st : UState) c => (unify fuel c.loc c.left c.right st).2)
      ⟨[], errors0, []⟩
    (minimizeLoop fuel st.subst).map (fun sub => (sub, st.errors))

/-- `Scheme::apply_substitution`: the scheme's own variables are removed
from the substitution first. -/
def schemeApplySubst (sch : Scheme) (sub : Subst) : Scheme :=
  { sch with ty := applySubst (sub.filter (fun q => !(sch.vars.contains q.1))) sch.ty }

/-- `type_of` from `typing/mod.rs`: build the root environment from the
globals, generate and sort constraints, solve them, and report the
substituted environment (the `retain` keeps every key of the
post-generation environment), the substituted inferred type and the
collected errors. -/
def typeOf (ns : SigNamespace) (input : List Char) (constants : List Prim)
    (genFuel solveFuel : Nat) (globals : List (String × RType)) (tree : STree) :
    Option (List (String × RType) × RType × List TypeError) :=
  let g0 : GenState :=
    ⟨0, [], [], globals.map (fun p => (p.1, ⟨[], p.2⟩)), []⟩
  let (inferred, g1) := genNode ns input constants genFuel tree [] g0
  let cs := sortConstraints g1.constraints
  match solveAndMinimize solveFuel cs g1.errors with
  | none => none
  | some (sub, errs) =>
    some (g1.rootFrame.map (fun p => (p.1, (schemeApplySubst p.2 sub).ty)),
      applySubst sub inferred, errs)

mutual

/-- `Type::satisfied_by_value` from `typing/types.rs`, as the predicate
"no errors are collected" (the error strings themselves are not
modelled): `Any` and `Var` accept anything, `Never` and `Money` accept
nothing, primitives accept exactly their own primitive, a list type
checks every element, a record type checks every declared field (a
missing field is an error exactly when the field is required), and a
block type accepts any callable value. -/
def satisfies : RType → RValue → Bool
  | .any, _ => true
  | .never, _ => false
  | .var _, _ => true
  | .money, _ => false
  | .num, v => match v with | .prim (.number _) => true | _ => false
  | .str, v => match v with | .prim (.string _) => true | _ => false
  | .bool, v => match v with | .prim (.boolean _) => true | _ => false
  | .time, v => match v with | .prim (.time _) => true | _ => false
  | .list t, v =>
    match v with
    | .list items => satisfiesAll t items
    | _ => false
  | .record _ fields, v =>
    match v with
    | .record rv => satisfiesFields fields rv
    | _ => false
  | .block _ _, v => match v with | .block _ => true | _ => false

/-- Every list element satisfies the element type. -/
def satisfiesAll (t : RType) : List RValue → Bool
  | [] => true
  | x :: xs => satisfies t x && satisfiesAll t xs

/-- The field loop of the record case: a present field must satisfy the
field type; an absent field is fine exactly when the field is optional. -/
def satisfiesFields : List (String × Bool × RType) → List (String × RValue) → Bool
  | [], _ => true
  | (n, opt, t) :: fs, rv =>
    (match lookupStr rv n with
     | some v => satisfies t v
     | none => opt) && satisfiesFields fs rv

end


/-- The source text of the counterexample script. -/
def c2Input : List Char := "f: x g: x.bar".data

/-- The syntax tree of `f: x g: x.bar` (symbols: `f` = 0, `x` = 1,
`g` = 2, `bar` = 3). -/
def c2Tree : STree :=
  .node ⟨.root, 0, 13⟩
    [.node ⟨.apply, 0, 13⟩
      [.node ⟨.argument, 0, 4⟩
        [.node ⟨.keyword 0, 0, 2⟩ [],
         .node ⟨.varNode, 3, 4⟩ [.node ⟨.ident 1, 3, 4⟩ []]],
       .node ⟨.argument, 5, 13⟩
        [.node ⟨.keyword 2, 5, 7⟩ [],
         .node ⟨.varNode, 8, 13⟩
           [.node ⟨.ident 1, 8, 9⟩ [], .node ⟨.ident 3, 10, 13⟩ []]]]]

/-- The signature of the host function `f`: `f:` takes a record with one
optional field `bar?: Num`, `g:` takes a `Num`, the result is `Num`, and
the function is registered as total. -/
def sigF : Signature :=
  ⟨[⟨0, .record false [("bar", true, .num)], false, true⟩,
    ⟨2, .num, false, true⟩], .num, true⟩

/-- A namespace with `f` as its only function. -/
def c2Ns : SigNamespace := fun name => if name == "f".data then some sigF else none

/-- The compiled script: the symbol arena and the emitter's output for
`c2Tree` (proved below). -/
def c2Script : Script :=
  ⟨["f", "x", "g", "bar"], [],
   [.pushKeyword 0, .pushVar 1, .pushKeyword 2, .pushVar 1, .pushProp 3, .callFunction 2]⟩

/-- The host callback for `f`: a constant function that always returns a
number — it can never fail, matching its total registration. -/
def c2Callback : Callback := fun _ m => (.ok (.prim (.number 0)), m)

/-- The runtime namespace registering `c2Callback` for symbol 0 (`f`). -/
def c2RunNs : RunNamespace := fun id => if id == 0 then some c2Callback else none

set_option maxHeartbeats 4000000 in
/-- C2: evaluation totality fails. For the script `f: x g: x.bar`, with
`f` the only (and total) function: the type checker reports no errors and
infers the input type `x : [ bar?: Num ]` — the unifier's record merge
keeps the left side's optionality when solving the field-access
constraint, so the access `x.bar` never forces `bar` to be required. The
empty record satisfies that input type under `Type::satisfied_by_value`
(the field is optional), the callback itself never fails, yet evaluation
returns a runtime `Undefined` error from `PushProp bar` instead of a
value. -/
theorem typed_total_script_eval_error :
    typeOf c2Ns c2Input [] 10 10 [] c2Tree
      = some ([("x", .record false [("bar", true, .num)])], .num, []) ∧
    emitNode c2Tree [] = some c2Script.instructions ∧
    sigF.total = true ∧
    (∀ pairs m, (c2Callback pairs m).1 = .ok (.prim (.number 0))) ∧
    satisfies (.record false [("bar", true, .num)]) (.record []) = true ∧
    ∃ m, c2Script.eval c2RunNs 10 [("x", .record [])]
      = some (.error (.machine .undefined 4 (some (.pushProp 3))), m) := by
  refine ⟨?_, ?_, rfl, fun pairs m => rfl, by simp [satisfies, satisfiesFields, lookupStr], ⟨_, rfl⟩⟩
  · have h1 : (unify 10 ⟨.varNode, 3, 4⟩ (.var "$1")
        (.record false [("bar", true, .num)]) ⟨[], [], []⟩).2
        = ⟨[("$1", .record false [("bar", true, .num)])], [], []⟩ := by
      simp [unify, bindVar, containsVar, freeVars, freeVarsList, freeVarsFields,
        applySubst, applySubstFields, applySubstList, substGet, substInsert, insertStr,
        RType.beq, beqFieldsSub, beqList, addProblem, extendVars]
    have h2 : (unify 10 ⟨.varNode, 8, 13⟩ (.var "$2") .num
        ⟨[("$1", .record false [("bar", true, .num)])], [], []⟩).2
        = ⟨[("$1", .record false [("bar", true, .num)]), ("$2", .num)], [], []⟩ := by
      simp [unify, bindVar, containsVar, freeVars, applySubst, substGet, substInsert,
        insertStr, RType.beq, addProblem, extendVars]
    have h3 : (unify 10 ⟨.apply, 0, 13⟩ (.var "$4") .num
        ⟨[("$1", .record false [("bar", true, .num)]), ("$2", .num)], [], []⟩).2
        = ⟨[("$1", .record false [("bar", true, .num)]), ("$2", .num), ("$4", .num)],
           [], []⟩ := by
      simp [unify, bindVar, containsVar, freeVars, applySubst, substGet, substInsert,
        insertStr, RType.beq, addProblem, extendVars]
    have h4 : (unify 10 ⟨.varNode, 8, 13⟩ (.var "$3")
        (.record true [("bar", false, .var "$2")])
        ⟨[("$1", .record false [("bar", true, .num)]), ("$2", .num), ("$4", .num)],
         [], []⟩).2
        = ⟨[("$1", .record false [("bar", true, .num)]), ("$2", .num), ("$4", .num),
            ("$3", .record true [("bar", false, .num)])], [], []⟩ := by
      simp [unify, bindVar, containsVar, freeVars, freeVarsList, freeVarsFields,
        applySubst, applySubstFields, applySubstList, substGet, substInsert, insertStr,
        RType.beq, beqFieldsSub, beqList, addProblem, extendVars]
    have h5 : (unify 10 ⟨.varNode, 8, 13⟩ (.var "$1") (.var "$3")
        ⟨[("$1", .record false [("bar", true, .num)]), ("$2", .num), ("$4", .num),
          ("$3", .record true [("bar", false, .num)])], [], []⟩).2
        = ⟨[("$1", .record false [("bar", true, .num)]), ("$2", .num), ("$4", .num),
            ("$3", .record false [("bar", true, .num)])], [], []⟩ := by
      simp [unify, recurU, unifyFields, bindVar, rebindU, rebindSide, containsVar,
        freeVars, freeVarsList, freeVarsFields, applySubst, applySubstFields,
        applySubstList, substGet, substInsert, insertStr, RType.beq, beqFieldsSub,
        beqList, addProblem, extendVars, extractField, lookupF]
    have hfold : ([(⟨.var "$1", .record false [("bar", true, .num)], ⟨.varNode, 3, 4⟩⟩ :
          Constraint),
         ⟨.var "$2", .num, ⟨.varNode, 8, 13⟩⟩,
         ⟨.var "$4", .num, ⟨.apply, 0, 13⟩⟩,
         ⟨.var "$3", .record true [("bar", false, .var "$2")], ⟨.varNode, 8, 13⟩⟩,
         ⟨.var "$1", .var "$3", ⟨.varNode, 8, 13⟩⟩].foldl
          (fun (st : UState) c => (unify 10 c.loc c.left c.right st).2) ⟨[], [], []⟩)
        = ⟨[("$1", .record false [("bar", true, .num)]), ("$2", .num), ("$4", .num),
            ("$3", .record false [("bar", true, .num)])], [], []⟩ := by
      simp only [List.foldl]
      rw [h1, h2, h3, h4, h5]
    have hSM : solveAndMinimize 10
        [⟨.var "$1", .record false [("bar", true, .num)], ⟨.varNode, 3, 4⟩⟩,
         ⟨.var "$2", .num, ⟨.varNode, 8, 13⟩⟩,
         ⟨.var "$4", .num, ⟨.apply, 0, 13⟩⟩,
         ⟨.var "$3", .record true [("bar", false, .var "$2")], ⟨.varNode, 8, 13⟩⟩,
         ⟨.var "$1", .var "$3", ⟨.varNode, 8, 13⟩⟩] []
        = some ([("$1", .record false [("bar", true, .num)]),
                 ("$2", .num),
                 ("$4", .num),
                 ("$3", .record false [("bar", true, .num)])], []) := by
      simp only [solveAndMinimize]
      rw [if_neg (by decide)]
      rw [hfold]
      rfl
    have hstep : typeOf c2Ns c2Input [] 10 10 [] c2Tree
        = (match solveAndMinimize 10
            [⟨.var "$1", .record false [("bar", true, .num)], ⟨.varNode, 3, 4⟩⟩,
             ⟨.var "$2", .num, ⟨.varNode, 8, 13⟩⟩,
             ⟨.var "$4", .num, ⟨.apply, 0, 13⟩⟩,
             ⟨.var "$3", .record true [("bar", false, .var "$2")], ⟨.varNode, 8, 13⟩⟩,
             ⟨.var "$1", .var "$3", ⟨.varNode, 8, 13⟩⟩] [] with
          | none => none
          | some (sub, errs) =>
            some ([("x", (schemeApplySubst ⟨[], .var "$1"⟩ sub).ty)],
              applySubst sub (.var "$4"), errs)) := rfl
    rw [hstep, hSM]
    rfl
  · simp [emitNode, emitSeq, emitArgs, emitProps, nodeSymbolId, c2Tree, c2Script,
      STree.nodeType, STree.nodeData, STree.children]

end Rainbow
